import Mathlib

/-!
Verification development for the Batumi Lunch web frontend planner
(`frontend/app/planner/page.tsx`) and its checkout companion
(`frontend/app/order/new/page.tsx`).

The planner logic is a set of pure functions over a `PlannerState` record
that React keeps in component state and mirrors into `localStorage`.  We
embed those functions directly.  JavaScript values that can flow out of
`JSON.parse` are modelled by the `JsVal` type below; JS numbers are
rationals (`Rat`) plus an explicit `NaN` marker (`Option Rat`, with `none`
standing for NaN).  JSON numbers are decimal, so `Rat` is an exact model of
every value `JSON.parse` can produce; `Infinity` cannot appear in parsed
JSON.  String-to-number coercion (`Number(...)`) is modelled for decimal
literals; exotic coercions (hex strings, `"Infinity"`) are mapped to NaN,
which only strengthens the defaulting paths exercised here.
-/

set_option maxHeartbeats 4000000

/-- A JavaScript runtime value as it can appear after `JSON.parse` plus the
`undefined`/`NaN` values produced by property access and failed coercion. -/
inductive JsVal where
  | undef
  | null
  | bool (b : Bool)
  | num (q : Rat)
  | nan
  | str (s : String)
  | arr (elems : List JsVal)
  | obj (fields : List (String × JsVal))

/-- Property access `v[key]`: `undefined` unless `v` is an object with the key. -/
def jsGet (v : JsVal) (key : String) : JsVal :=
  match v with
  | .obj fields =>
    match fields.find? (fun f => f.1 == key) with
    | some f => f.2
    | none => JsVal.undef
  | _ => JsVal.undef

/-- Nullish coalescing `a ?? b`. -/
def jsNullish (v fallback : JsVal) : JsVal :=
  match v with
  | JsVal.undef => fallback
  | .null => fallback
  | _ => v

/-- JS truthiness. -/
def jsTruthy : JsVal → Bool
  | JsVal.undef => false
  | .null => false
  | .bool b => b
  | .num q => !(q == 0)
  | .nan => false
  | .str s => !(s == "")
  | .arr _ => true
  | .obj _ => true

/-- `Object.entries`: object fields, or index-keyed entries for an array. -/
def jsEntries : JsVal → List (String × JsVal)
  | .obj fields => fields
  | .arr elems => (elems.enum).map (fun p => (toString p.1, p.2))
  | _ => []

def isAsciiDigit (c : Char) : Bool := 48 ≤ c.toNat && c.toNat ≤ 57

def digitsToNat (cs : List Char) : Nat :=
  cs.foldl (fun n c => n * 10 + (c.toNat - 48)) 0

/-- Math.floor on an exact rational. -/
def ratFloor (q : Rat) : Int := q.num / (q.den : Int)

/-- Math.ceil on an exact rational. -/
def ratCeil (q : Rat) : Int := -((-q.num) / (q.den : Int))

def isJsSpace (c : Char) : Bool := c == ' ' || c == '\t' || c == '\n' || c == '\r'

/-- Optional exponent suffix of a JS numeric literal; `none` when malformed. -/
def parseExpSuffix : List Char → Option Int
  | [] => some 0
  | c :: rest =>
    if c == 'e' || c == 'E' then
      match rest with
      | '+' :: ds => if ds ≠ [] ∧ ds.all isAsciiDigit then some (digitsToNat ds) else none
      | '-' :: ds => if ds ≠ [] ∧ ds.all isAsciiDigit then some (-(digitsToNat ds : Int)) else none
      | ds => if ds ≠ [] ∧ ds.all isAsciiDigit then some (digitsToNat ds) else none
    else none

/-- Unsigned decimal literal `digits [. digits] [exponent]`. -/
def parseUnsignedDec (cs : List Char) : Option Rat :=
  let ip := cs.takeWhile isAsciiDigit
  let rest := cs.dropWhile isAsciiDigit
  match rest with
  | '.' :: rest2 =>
    let fp := rest2.takeWhile isAsciiDigit
    let rest3 := rest2.dropWhile isAsciiDigit
    if ip = [] ∧ fp = [] then none
    else
      (parseExpSuffix rest3).map (fun e =>
        ((digitsToNat ip : Rat) + (digitsToNat fp : Rat) / ((10 : Rat) ^ fp.length)) * (10 : Rat) ^ e)
  | _ =>
    if ip = [] then none
    else (parseExpSuffix rest).map (fun e => (digitsToNat ip : Rat) * (10 : Rat) ^ e)

/-- `Number(string)`: trimmed empty string is 0, decimal literals parse,
anything else is NaN (`none`). -/
def jsStrToNum (s : String) : Option Rat :=
  let cs := ((s.toList.dropWhile isJsSpace).reverse.dropWhile isJsSpace).reverse
  if cs = [] then some 0
  else
    match cs with
    | '+' :: rest => parseUnsignedDec rest
    | '-' :: rest => (parseUnsignedDec rest).map (fun q => -q)
    | _ => parseUnsignedDec cs

/-- `Number(v)` coercion; `none` is NaN.  Arrays coerce through their string
form; the one-element case behaves like coercing the element. -/
def jsToNum : JsVal → Option Rat
  | JsVal.undef => none
  | .null => some 0
  | .bool b => some (if b then 1 else 0)
  | .num q => some q
  | .nan => none
  | .str s => jsStrToNum s
  | .arr [] => some 0
  | .arr [x] => jsToNum x
  | .arr (_ :: _ :: _) => none
  | .obj _ => none

/-- clampNumber from the source.  The parameter is a raw JS value because the
call sites pass loosely-typed data from storage; `Number.isNaN(value)` is only
true for the NaN value itself, while `Math.floor`/`Math.max`/`Math.min`
coerce and propagate NaN (`none`). -/
def clampNumber (value : JsVal) (lo hi : Rat) : Option Rat :=
  match value with
  | .nan => some lo
  | v =>
    match jsToNum v with
    | none => none
    | some q => some (min (max ((ratFloor q : Int) : Rat) lo) hi)

/-- Number of iterations of `for (let i = 0; i < n; i++)` when `n` is a JS
number (`none` = NaN, which never satisfies `i < n`). -/
def jsNumToCount : Option Rat → Nat
  | none => 0
  | some q => (ratCeil q).toNat

/-- `clampNumber(value, 1, MAX_WEEKS)` read back as an iteration count. -/
def clampWeeksCount (value : Rat) : Nat :=
  jsNumToCount (clampNumber (.num value) 1 8)

/-!
Date arithmetic for `shiftWeekStart`.  `new Date(base + "T00:00:00Z")` accepts
exactly a padded ISO `YYYY-MM-DD` date (invalid dates give NaN and the
function returns null); `setUTCDate` then shifts by whole days and
`toISOString().slice(0, 10)` reformats.  Day counting uses the standard
civil-date conversion; years are offset by one full 400-year Gregorian cycle
so the computation stays in `Nat`.
-/

def isLeapYear (y : Nat) : Bool := y % 4 == 0 && (y % 100 != 0 || y % 400 == 0)

def daysInMonth (y m : Nat) : Nat :=
  if m = 2 then (if isLeapYear y then 29 else 28)
  else if m = 4 ∨ m = 6 ∨ m = 9 ∨ m = 11 then 30
  else 31

/-- Parse a strict `YYYY-MM-DD` string, validating the calendar date. -/
def parseISODate (s : String) : Option (Nat × Nat × Nat) :=
  match s.toList with
  | [y1, y2, y3, y4, '-', m1, m2, '-', d1, d2] =>
    if [y1, y2, y3, y4, m1, m2, d1, d2].all isAsciiDigit then
      let y := digitsToNat [y1, y2, y3, y4]
      let m := digitsToNat [m1, m2]
      let d := digitsToNat [d1, d2]
      if 1 ≤ m ∧ m ≤ 12 ∧ 1 ≤ d ∧ d ≤ daysInMonth y m then some (y, m, d) else none
    else none
  | _ => none

/-- Day number of a civil date (year pre-shifted by +400 to stay in `Nat`). -/
def daysFromCivil (y m d : Nat) : Nat :=
  let y' := if m ≤ 2 then y - 1 else y
  let era := y' / 400
  let yoe := y' % 400
  let mp := (m + 9) % 12
  let doy := (153 * mp + 2) / 5 + (d - 1)
  let doe := yoe * 365 + yoe / 4 - yoe / 100 + doy
  era * 146097 + doe

/-- Inverse of `daysFromCivil`. -/
def civilFromDays (z : Nat) : Nat × Nat × Nat :=
  let era := z / 146097
  let doe := z % 146097
  let yoe := (doe - doe / 1460 + doe / 36524 - doe / 146096) / 365
  let y := yoe + era * 400
  let doy := doe - (365 * yoe + yoe / 4 - yoe / 100)
  let mp := (5 * doy + 2) / 153
  let d := doy - (153 * mp + 2) / 5 + 1
  let m := if mp < 10 then mp + 3 else mp - 9
  (if m ≤ 2 then y + 1 else y, m, d)

def padDigits (width n : Nat) : String :=
  let s := toString n
  let rec pad (k : Nat) (acc : String) : String :=
    match k with
    | 0 => acc
    | k + 1 => pad k ("0" ++ acc)
  pad (width - s.length) s

/-- The first ten characters of `Date.prototype.toISOString()` for a UTC
midnight date; years beyond 9999 print in expanded `+YYYYYY` form, of which
`slice(0, 10)` keeps the first ten characters. -/
def formatISODate (y m d : Nat) : String :=
  if y ≤ 9999 then padDigits 4 y ++ "-" ++ padDigits 2 m ++ "-" ++ padDigits 2 d
  else String.mk ((("+" ++ padDigits 6 y ++ "-" ++ padDigits 2 m ++ "-" ++ padDigits 2 d).toList).take 10)

/-- shiftWeekStart from the source: shifts an ISO week-start date by
`offset` weeks; null/unparseable input gives null.  All call sites pass a
non-negative offset (a week index). -/
def shiftWeekStart (base : Option String) (offset : Nat) : Option String :=
  match base with
  | none => none
  | some b =>
    if b = "" then none
    else
      match parseISODate b with
      | none => none
      | some (y, m, d) =>
        let z := daysFromCivil (y + 400) m d + offset * 7
        let c := civilFromDays z
        some (formatISODate (c.1 - 400) c.2.1 c.2.2)

/-!
The planner data model (`planner/page.tsx`).  A JS `Record<string, Selection>`
is modelled as an insertion-ordered association list without duplicate keys;
`recordSet` keeps the position of an existing key, as JS objects do.
-/

def MAX_PORTIONS : Nat := 8
def MAX_WEEKS : Nat := 8

structure Selection where
  offerId : String
  day : String
  portions : Nat
deriving DecidableEq

abbrev SelectionMap := List (String × Selection)

def recordGet (m : SelectionMap) (key : String) : Option Selection :=
  (m.find? (fun e => e.1 == key)).map (fun e => e.2)

def recordSet (m : SelectionMap) (key : String) (v : Selection) : SelectionMap :=
  if m.any (fun e => e.1 == key) then
    m.map (fun e => if e.1 == key then (key, v) else e)
  else m ++ [(key, v)]

def recordDelete (m : SelectionMap) (key : String) : SelectionMap :=
  m.filter (fun e => !(e.1 == key))

def recordKeys (m : SelectionMap) : List String := m.map (fun e => e.1)

/-- cloneSelections deep-copies a record; on pure values this is the identity,
kept as a named definition to mirror the source. -/
def cloneSelections (source : SelectionMap) : SelectionMap := source

structure WeekPlan where
  weekStart : Option String
  selections : SelectionMap
  enabled : Bool
deriving DecidableEq

structure PlannerState where
  weeks : List WeekPlan
  weeksCount : Nat
  repeatWeeks : Bool
  address : String
  promoCode : String
deriving DecidableEq

def createWeekPlan (weekStart : Option String) (enabled : Bool := true)
    (selections : SelectionMap := []) : WeekPlan :=
  { weekStart, enabled, selections := cloneSelections selections }

def DEFAULT_STATE : PlannerState :=
  { weeks := [createWeekPlan none]
    weeksCount := 1
    repeatWeeks := true
    address := ""
    promoCode := "" }

/-- The loop body of ensureWeeks at a given index (the source builds the list
with `for (let index = 0; index < targetCount; index += 1)`). -/
def ensureWeekBody (weeks : List WeekPlan) (baseWeekStart : Option String)
    (repeatWeeks : Bool) (index : Nat) : WeekPlan :=
  let base := weeks.head?.getD (createWeekPlan baseWeekStart)
  let baseSelections := cloneSelections base.selections
  let existing := weeks[index]?
  let computedStart := shiftWeekStart baseWeekStart index
  if index = 0 then
    { weekStart := computedStart <|> (existing.bind (fun w => w.weekStart)) <|> base.weekStart <|> baseWeekStart
      enabled := true
      selections :=
        match existing with
        | some e => cloneSelections e.selections
        | none => cloneSelections baseSelections }
  else
    { weekStart := computedStart <|> (existing.bind (fun w => w.weekStart))
      enabled := (existing.map (fun w => w.enabled)).getD true
      selections :=
        if repeatWeeks then cloneSelections baseSelections
        else
          match existing with
          | some e => cloneSelections e.selections
          | none => [] }

def ensureWeeks (weeks : List WeekPlan) (targetCount : Nat)
    (baseWeekStart : Option String) (repeatWeeks : Bool) : List WeekPlan :=
  (List.range targetCount).map (ensureWeekBody weeks baseWeekStart repeatWeeks)

def areSelectionMapsEqual (left right : SelectionMap) : Bool :=
  (recordKeys left).length == (recordKeys right).length &&
  (recordKeys left).all (fun key =>
    match recordGet left key, recordGet right key with
    | some a, some b => a.offerId == b.offerId && a.day == b.day && a.portions == b.portions
    | _, _ => false)

def areWeeksEqual (left right : List WeekPlan) : Bool :=
  left.length == right.length &&
  (List.range left.length).all (fun index =>
    match left[index]?, right[index]? with
    | some a, some b =>
      a.weekStart == b.weekStart && a.enabled == b.enabled &&
      areSelectionMapsEqual a.selections b.selections
    | _, _ => false)

def syncRepeatedWeeks (weeks : List WeekPlan) (baseSelections : SelectionMap) : List WeekPlan :=
  if weeks.length ≤ 1 then weeks
  else
    let synchronized := weeks.take 1 ++ (weeks.drop 1).map (fun current =>
      if areSelectionMapsEqual current.selections (cloneSelections baseSelections) then current
      else { current with selections := cloneSelections baseSelections })
    let changed := (weeks.drop 1).any (fun current =>
      !areSelectionMapsEqual current.selections (cloneSelections baseSelections))
    if changed then synchronized else weeks

/-!
Persistence restore (`loadInitialState` / `normalizeSelections`).  The stored
string parses to an arbitrary JSON value; `none` input covers both a missing
key and a `JSON.parse` exception (the `catch` returns `DEFAULT_STATE` either
way).  The restored `weeksCount` is kept as a raw JS number (`Option Rat`,
NaN possible) in `RawPlannerState`; `repeatWeeks`, `address` and `promoCode`
keep their raw JS values.  The in-session `PlannerState` uses the typed
shapes every handler writes (`repeatWeeks` is only ever read for truthiness,
so collapsing it through `jsTruthy` at the boundary is observation-equal).
-/

structure RawPlannerState where
  weeks : List WeekPlan
  weeksCount : Option Rat
  repeatWeeks : JsVal
  address : JsVal
  promoCode : JsVal

def rawOfState (s : PlannerState) : RawPlannerState :=
  { weeks := s.weeks
    weeksCount := some (s.weeksCount : Rat)
    repeatWeeks := .bool s.repeatWeeks
    address := .str s.address
    promoCode := .str s.promoCode }

def normalizeSelections (input : JsVal) : SelectionMap :=
  match input with
  | .obj _ | .arr _ =>
    (jsEntries input).foldl (fun result entry =>
      match entry.2 with
      | .obj _ | .arr _ =>
        let value := entry.2
        let id := match jsGet value "offerId" with | .str s => s | _ => entry.1
        let day := match jsGet value "day" with | .str s => s | _ => ""
        let rawPortions := jsToNum (jsGet value "portions")
        let portions : Nat :=
          match rawPortions with
          | some q => if 0 < q then min (ratFloor q).toNat MAX_PORTIONS else 1
          | none => 1
        recordSet result id { offerId := id, day, portions }
      | _ => result) []
  | _ => []

/-- A stored `weekStart` is kept when it is a string; other shapes behave as
null downstream (they fail date parsing and `??` keeps them only as opaque
values never otherwise inspected). -/
def jsWeekStart (v : JsVal) : Option String :=
  match v with
  | .str s => some s
  | _ => none

def loadInitialState (stored : Option JsVal) : RawPlannerState :=
  match stored with
  | none => rawOfState DEFAULT_STATE
  | some parsed =>
    match jsGet parsed "weeks" with
    | .arr rawWeeks =>
      let weeks : List WeekPlan := (rawWeeks.enum).map (fun p =>
        { weekStart := jsWeekStart (jsGet p.2 "weekStart")
          selections := normalizeSelections (jsGet p.2 "selections")
          enabled := if p.1 = 0 then true
            else match jsGet p.2 "enabled" with | .bool false => false | _ => true })
      let weeksCount := clampNumber
        (jsNullish (jsGet parsed "weeksCount") (.num (rawWeeks.length : Rat))) 1 (MAX_WEEKS : Nat)
      let repeatWeeks := jsNullish (jsGet parsed "repeatWeeks") (.bool true)
      let baseWeekStart := weeks.head?.bind (fun w => w.weekStart)
      let normalizedWeeks := ensureWeeks
        (if weeks.length > 0 then weeks else [createWeekPlan baseWeekStart])
        (jsNumToCount weeksCount) baseWeekStart (jsTruthy repeatWeeks)
      { weeks := normalizedWeeks
        weeksCount := weeksCount
        repeatWeeks := repeatWeeks
        address := jsNullish (jsGet parsed "address") (.str "")
        promoCode := jsNullish (jsGet parsed "promoCode") (.str "") }
    | _ =>
      let legacySelections := normalizeSelections (jsGet parsed "selections")
      let legacyWeekStart := jsWeekStart (jsGet parsed "weekStart")
      let repeatWeeks := jsNullish (jsGet parsed "repeatWeeks") (.bool true)
      let weeksCount := clampNumber (jsNullish (jsGet parsed "weeksCount") (.num 1)) 1 (MAX_WEEKS : Nat)
      let baseWeek := createWeekPlan legacyWeekStart true legacySelections
      { weeks := ensureWeeks [baseWeek] (jsNumToCount weeksCount) legacyWeekStart (jsTruthy repeatWeeks)
        weeksCount := weeksCount
        repeatWeeks := repeatWeeks
        address := jsNullish (jsGet parsed "address") (.str "")
        promoCode := jsNullish (jsGet parsed "promoCode") (.str "") }

/-!
The menu model: just the fields the planner logic reads.
-/

inductive DayOfferStatus where
  | available
  | sold_out
  | closed
deriving DecidableEq

structure MenuDay where
  day : String
  offerId : Option String
  status : DayOfferStatus
deriving DecidableEq

structure MenuResponse where
  weekStart : Option String
  items : List MenuDay
deriving DecidableEq

structure PlannerPreset where
  days : List String
  portions : Int
deriving DecidableEq

/-- An `offerId : string | null` is JS-truthy when present and non-empty. -/
def offerIdTruthy (offerId : Option String) : Bool :=
  match offerId with
  | some s => !(s == "")
  | none => false

/-- Map-with-index, mirroring `array.map((x, index) => ...)`. -/
def listMapIdxFrom (f : Nat → α → β) (start : Nat) : List α → List β
  | [] => []
  | a :: as => f start a :: listMapIdxFrom f (start + 1) as

def listMapIdx (f : Nat → α → β) (l : List α) : List β := listMapIdxFrom f 0 l

/-!
The planner event handlers (`useCallback` bodies in `PlannerPage`).  Each is
a pure function from the previous `PlannerState` to the next one, exactly as
passed to `setPlannerState`.  Unreachable `weeks[0]` accesses (the target
count from `clampNumber(_, 1, MAX_WEEKS)` is at least 1, so `ensureWeeks`
output is never empty) are totalized with `head?` matches returning `prev`.
-/

def handleToggleDay (menu : Option MenuResponse) (day : MenuDay) (prev : PlannerState) : PlannerState :=
  if !offerIdTruthy day.offerId || day.status ≠ DayOfferStatus.available then prev
  else
    match day.offerId with
    | none => prev
    | some oid =>
      let targetCount := clampWeeksCount (prev.weeksCount : Rat)
      let targetWeekStart := (menu.bind (fun m => m.weekStart)) <|> (prev.weeks.head?.bind (fun w => w.weekStart))
      let weeks := ensureWeeks prev.weeks targetCount targetWeekStart prev.repeatWeeks
      match weeks.head? with
      | none => prev
      | some current =>
        let selections :=
          if (recordGet current.selections oid).isSome then recordDelete current.selections oid
          else recordSet current.selections oid { offerId := oid, day := day.day, portions := 1 }
        let weeks := weeks.set 0 { current with selections := selections }
        let weeks := if prev.repeatWeeks then syncRepeatedWeeks weeks selections else weeks
        if areWeeksEqual weeks prev.weeks then prev else { prev with weeks := weeks }

def handleChangePortions (menu : Option MenuResponse) (offerId : String) (nextPortions : Int)
    (prev : PlannerState) : PlannerState :=
  let targetCount := clampWeeksCount (prev.weeksCount : Rat)
  let targetWeekStart := (menu.bind (fun m => m.weekStart)) <|> (prev.weeks.head?.bind (fun w => w.weekStart))
  let weeks := ensureWeeks prev.weeks targetCount targetWeekStart prev.repeatWeeks
  match weeks.head? with
  | none => prev
  | some current =>
    match recordGet current.selections offerId with
    | none => prev
    | some sel =>
      let clamped : Nat := (min (max nextPortions 1) (MAX_PORTIONS : Int)).toNat
      if sel.portions = clamped then prev
      else
        let selections := recordSet current.selections offerId { sel with portions := clamped }
        let weeks := weeks.set 0 { current with selections := selections }
        let weeks := if prev.repeatWeeks then syncRepeatedWeeks weeks selections else weeks
        { prev with weeks := weeks }

def handleApplyPreset (menu : Option MenuResponse) (preset : PlannerPreset)
    (prev : PlannerState) : PlannerState :=
  match menu with
  | none => prev
  | some m =>
    let targetCount := clampWeeksCount (prev.weeksCount : Rat)
    let targetWeekStart := m.weekStart <|> (prev.weeks.head?.bind (fun w => w.weekStart))
    let weeks := ensureWeeks prev.weeks targetCount targetWeekStart prev.repeatWeeks
    let selections := preset.days.foldl (fun selections dayName =>
      match m.items.find? (fun item =>
          item.day == dayName && offerIdTruthy item.offerId &&
          item.status == DayOfferStatus.available) with
      | some menuDay =>
        match menuDay.offerId with
        | some oid =>
          recordSet selections oid
            { offerId := oid, day := menuDay.day, portions := (max 1 preset.portions).toNat }
        | none => selections
      | none => selections) []
    match weeks.head? with
    | none => prev
    | some w0 =>
      let weeks := weeks.set 0 { w0 with selections := selections }
      let weeks := if prev.repeatWeeks then syncRepeatedWeeks weeks selections else weeks
      { prev with weeks := weeks }

def handleClearSelection (offerId : String) (prev : PlannerState) : PlannerState :=
  match prev.weeks.head? with
  | none => prev
  | some w0 =>
    if (recordGet w0.selections offerId).isNone then prev
    else
      let selections := recordDelete w0.selections offerId
      let weeks := listMapIdx (fun index week =>
        if index = 0 then { week with selections := selections }
        else if !prev.repeatWeeks then week
        else { week with selections := ([] : SelectionMap) }) prev.weeks
      let syncedWeeks := if prev.repeatWeeks then syncRepeatedWeeks weeks selections else weeks
      { prev with weeks := syncedWeeks }

def handleClearAll (prev : PlannerState) : PlannerState :=
  match prev.weeks.head? with
  | none => prev
  | some w0 =>
    if (recordKeys w0.selections).length = 0 then prev
    else
      let clearedWeeks := listMapIdx (fun index week =>
        if index = 0 then { week with selections := ([] : SelectionMap) }
        else if !prev.repeatWeeks then week
        else { week with selections := ([] : SelectionMap) }) prev.weeks
      let syncedWeeks := if prev.repeatWeeks then syncRepeatedWeeks clearedWeeks [] else clearedWeeks
      { prev with weeks := syncedWeeks }

def handleWeekSelect (weekStart : Option String) (prev : PlannerState) : PlannerState :=
  { prev with
    weeks := ensureWeeks [createWeekPlan weekStart] (clampWeeksCount (prev.weeksCount : Rat))
      weekStart prev.repeatWeeks }

def handleWeeksCountChange (value : Rat) (prev : PlannerState) : PlannerState :=
  let target := clampWeeksCount value
  if target = prev.weeksCount then prev
  else
    let baseWeekStart := prev.weeks.head?.bind (fun w => w.weekStart)
    let weeks := ensureWeeks prev.weeks target baseWeekStart prev.repeatWeeks
    { prev with weeksCount := target, weeks := weeks }

/-- handleRepeatToggle.  The source reads `prev.weeksCount` unclamped here;
with `weeksCount = 0` the JS would throw on `weeks[0].selections`, so
theorems about this handler assume `1 ≤ weeksCount` (every write to
`weeksCount` clamps it to at least 1). -/
def handleRepeatToggle (value : Bool) (prev : PlannerState) : PlannerState :=
  if value = prev.repeatWeeks then prev
  else
    let baseWeekStart := prev.weeks.head?.bind (fun w => w.weekStart)
    let weeks := ensureWeeks prev.weeks prev.weeksCount baseWeekStart value
    let weeks :=
      if value then syncRepeatedWeeks weeks ((weeks.head?.map (fun w => w.selections)).getD [])
      else weeks
    { prev with repeatWeeks := value, weeks := weeks }

def updateWeekPlan (index : Nat) (updater : WeekPlan → WeekPlan) (prev : PlannerState) : PlannerState :=
  let targetCount := clampWeeksCount (prev.weeksCount : Rat)
  let baseWeekStart := prev.weeks.head?.bind (fun w => w.weekStart)
  let weeks := ensureWeeks prev.weeks targetCount baseWeekStart prev.repeatWeeks
  if index ≥ weeks.length then prev
  else
    match weeks[index]? with
    | none => prev
    | some w =>
      let updated := updater w
      let weeks := listMapIdx (fun idx week =>
        if idx = index then { updated with enabled := if idx = 0 then true else updated.enabled }
        else week) weeks
      let weeks :=
        if prev.repeatWeeks ∧ index = 0 then
          syncRepeatedWeeks weeks ((weeks.head?.map (fun w => w.selections)).getD [])
        else weeks
      if areWeeksEqual weeks prev.weeks then prev else { prev with weeks := weeks }

/-!
The `WeeksModal` edit surface.  Its `isEditable` guard is what makes weeks
beyond the first read-only while repeat mode is on.
-/

def modalIsEditable (repeatWeeks : Bool) (activeIndex : Nat) : Bool :=
  !repeatWeeks || activeIndex == 0

def modalActiveWeek (s : PlannerState) (activeIndex : Nat) : Option WeekPlan :=
  let activeWeeks := s.weeks.take s.weeksCount
  activeWeeks[activeIndex]? <|> activeWeeks.head?

def modalToggleDay (s : PlannerState) (activeIndex : Nat) (day : MenuDay) : PlannerState :=
  if !modalIsEditable s.repeatWeeks activeIndex || !offerIdTruthy day.offerId
      || (modalActiveWeek s activeIndex).isNone then s
  else
    updateWeekPlan activeIndex (fun week =>
      match day.offerId with
      | none => week
      | some oid =>
        let selections :=
          if (recordGet week.selections oid).isSome then recordDelete week.selections oid
          else recordSet week.selections oid { offerId := oid, day := day.day, portions := 1 }
        { week with selections := selections }) s

def modalChangePortions (s : PlannerState) (activeIndex : Nat) (offerId : String)
    (portions : Int) : PlannerState :=
  if !modalIsEditable s.repeatWeeks activeIndex || (modalActiveWeek s activeIndex).isNone then s
  else
    updateWeekPlan activeIndex (fun week =>
      match recordGet week.selections offerId with
      | none => week
      | some current =>
        let clamped : Nat := (min (max portions 1) (MAX_PORTIONS : Int)).toNat
        { week with
          selections := recordSet week.selections offerId { current with portions := clamped } }) s

def handleToggleWeekEnabled (index : Nat) (enabled : Bool) (s : PlannerState) : PlannerState :=
  if index = 0 then s
  else updateWeekPlan index (fun week => { week with enabled := enabled }) s

/-!
The menu-driven normalization effect (`useEffect` on `[menu]`): re-derive the
week list, prune week 0's selections against the published menu's offer ids,
and re-propagate under repeat mode.
-/

def menuValidIds (m : MenuResponse) : List String :=
  (m.items.map (fun item => item.offerId)).filterMap id |>.filter (fun s => !(s == ""))

/-- The `if (menu)` block of the effect: prune week 0's selections against
the published menu's offer ids (`weeks[0]` is totalized with `head?`; the
target count is at least 1, so the list is never empty there). -/
def menuPruneStage (menu : Option MenuResponse) (weeks : List WeekPlan) : List WeekPlan :=
  match menu with
  | none => weeks
  | some m =>
    match weeks.head? with
    | none => weeks
    | some w0 =>
      let filteredSelections := w0.selections.filter (fun e => (menuValidIds m).contains e.1)
      if areSelectionMapsEqual filteredSelections w0.selections then weeks
      else weeks.set 0 { w0 with selections := filteredSelections }

/-- The `if (prev.repeatWeeks)` block of the effect: re-propagate week 0's
(possibly pruned) selections. -/
def menuSyncStage (repeatWeeks : Bool) (weeks : List WeekPlan) : List WeekPlan :=
  if repeatWeeks then
    match weeks.head? with
    | none => weeks
    | some w0 =>
      let synced := syncRepeatedWeeks weeks w0.selections
      if !areWeeksEqual synced weeks then synced else weeks
  else weeks

def applyMenuEffect (menu : Option MenuResponse) (prev : PlannerState) : PlannerState :=
  let targetCount := clampWeeksCount (prev.weeksCount : Rat)
  let targetWeekStart := (menu.bind (fun m => m.weekStart)) <|> (prev.weeks.head?.bind (fun w => w.weekStart))
  let weeks := ensureWeeks prev.weeks targetCount targetWeekStart prev.repeatWeeks
  let weeks := menuPruneStage menu weeks
  let weeks := menuSyncStage prev.repeatWeeks weeks
  if areWeeksEqual weeks prev.weeks then prev else { prev with weeks := weeks }

/-!
The calculation payload (`weeksPayload` memo).
-/

structure PlannerSelectionRequest where
  offerId : String
  portions : Nat
deriving DecidableEq

structure PlannerWeekSelectionRequest where
  weekStart : Option String
  enabled : Bool
  selections : List PlannerSelectionRequest
deriving DecidableEq

def weeksPayloadBody (s : PlannerState) (baseWeekStart : Option String) (index : Nat) :
    PlannerWeekSelectionRequest :=
  let weekPlan := (s.weeks[index]?).getD (createWeekPlan (shiftWeekStart baseWeekStart index))
  let baseSelections := (s.weeks.head?.map (fun w => w.selections)).getD []
  let selectionsSource :=
    if index = 0 then weekPlan.selections
    else if s.repeatWeeks then baseSelections
    else weekPlan.selections
  { weekStart := weekPlan.weekStart <|> shiftWeekStart baseWeekStart index
    enabled := if index = 0 then true else weekPlan.enabled
    selections := selectionsSource.map (fun e =>
      { offerId := e.2.offerId, portions := e.2.portions }) }

def weeksPayload (s : PlannerState) : List PlannerWeekSelectionRequest :=
  let total := clampWeeksCount (s.weeksCount : Rat)
  let baseWeekStart := s.weeks.head?.bind (fun w => w.weekStart)
  (List.range total).map (weeksPayloadBody s baseWeekStart)

/-- The normalization pipeline the spec's Synchronizer section describes:
`ensureWeeks` on the state's own parameters followed by the repeat
re-propagation, exactly as the menu effect composes them. -/
def normalizeWeeks (weeks : List WeekPlan) (count : Nat) (base : Option String)
    (repeatWeeks : Bool) : List WeekPlan :=
  let w := ensureWeeks weeks count base repeatWeeks
  if repeatWeeks then syncRepeatedWeeks w ((w.head?.map (fun x => x.selections)).getD []) else w

/-- A single planner operation, used to quantify over the edit surface. -/
inductive PlannerOp where
  | menuEffect (menu : Option MenuResponse)
  | toggleDay (menu : Option MenuResponse) (day : MenuDay)
  | changePortions (menu : Option MenuResponse) (offerId : String) (next : Int)
  | applyPreset (menu : Option MenuResponse) (preset : PlannerPreset)
  | clearSelection (offerId : String)
  | clearAll
  | weekSelect (weekStart : Option String)
  | weeksCountChange (value : Rat)
  | repeatToggle (value : Bool)
  | updateWeek (index : Nat) (updater : WeekPlan → WeekPlan)
  | modalToggle (activeIndex : Nat) (day : MenuDay)
  | modalPortions (activeIndex : Nat) (offerId : String) (portions : Int)
  | toggleWeekEnabled (index : Nat) (enabled : Bool)

def applyOp : PlannerOp → PlannerState → PlannerState
  | .menuEffect menu, s => applyMenuEffect menu s
  | .toggleDay menu day, s => handleToggleDay menu day s
  | .changePortions menu offerId next, s => handleChangePortions menu offerId next s
  | .applyPreset menu preset, s => handleApplyPreset menu preset s
  | .clearSelection offerId, s => handleClearSelection offerId s
  | .clearAll, s => handleClearAll s
  | .weekSelect weekStart, s => handleWeekSelect weekStart s
  | .weeksCountChange value, s => handleWeeksCountChange value s
  | .repeatToggle value, s => handleRepeatToggle value s
  | .updateWeek index updater, s => updateWeekPlan index updater s
  | .modalToggle activeIndex day, s => modalToggleDay s activeIndex day
  | .modalPortions activeIndex offerId portions, s => modalChangePortions s activeIndex offerId portions
  | .toggleWeekEnabled index enabled, s => handleToggleWeekEnabled index enabled s

/-- The week-0 selection edits of the planner surface. -/
def isWeek0SelectionEdit : PlannerOp → Bool
  | .toggleDay _ _ => true
  | .changePortions _ _ _ => true
  | .applyPreset _ _ => true
  | .clearSelection _ => true
  | .clearAll => true
  | _ => false

/-!
The totals block of the planner summary (`overallSubtotal` / `overallDiscount`
/ `overallTotal`, planner page lines 508-512).  Amounts are integer cents.
-/

structure OrderCalcResponse where
  subtotal : Int
  discount : Int
  total : Int
deriving DecidableEq

def overallSubtotal (calcData : Option OrderCalcResponse) (repeatWeeks : Bool)
    (baseSubtotalFallback : Int) (totalEnabledWeeks : Nat) : Int :=
  match calcData with
  | some d => d.subtotal
  | none => if repeatWeeks then baseSubtotalFallback * totalEnabledWeeks else baseSubtotalFallback

def overallDiscount (calcData : Option OrderCalcResponse) : Int :=
  (calcData.map (fun d => d.discount)).getD 0

def overallTotal (calcData : Option OrderCalcResponse) (subtotal discount : Int) : Int :=
  match calcData with
  | some d => d.total
  | none => max (subtotal - discount) 0

/-- The portion-count choices offered by the checkout wizard
(`order/new/page.tsx`, the `[1, 2, 3, 4].map` selector). -/
def newOrderCountOptions : List Nat := [1, 2, 3, 4]

/-!
Modelled from the spec: the backend Pricing & Promotion Calculator
(spec section 4.4) is not part of the frontend sources; only its caller
(`calculatePlannerOrder`) is.  The model follows the spec's words: subtotal
sums accepted portions times unit price over enabled weeks, an invalid promo
code degrades to a zero discount, and the total is
`max(subtotal - discount, 0)`.
-/

inductive PromoRule where
  | percentage (value : Nat)
  | flat (value : Nat)
  | notFound
deriving DecidableEq

structure SpecQuoteLine where
  acceptedPortions : Nat
  unitPrice : Nat
deriving DecidableEq

structure SpecQuoteWeek where
  enabled : Bool
  lines : List SpecQuoteLine
deriving DecidableEq

structure SpecQuote where
  subtotal : Int
  discount : Int
  total : Int
deriving DecidableEq

def specWeekSubtotal (w : SpecQuoteWeek) : Nat :=
  w.lines.foldl (fun acc l => acc + l.acceptedPortions * l.unitPrice) 0

def specSubtotal (weeks : List SpecQuoteWeek) : Nat :=
  (weeks.filter (fun w => w.enabled)).foldl (fun acc w => acc + specWeekSubtotal w) 0

def specDiscount (subtotal : Nat) (promo : PromoRule) : Nat :=
  match promo with
  | .percentage value => subtotal * value / 100
  | .flat value => value
  | .notFound => 0

def specTotal (subtotal discount : Int) : Int := max (subtotal - discount) 0

def specCalculate (weeks : List SpecQuoteWeek) (promo : PromoRule) : SpecQuote :=
  let subtotal := specSubtotal weeks
  let discount := specDiscount subtotal promo
  { subtotal := subtotal, discount := discount, total := specTotal subtotal discount }

/-!
Modelled from the spec: the backend Duplicate Resolver and order creation
guard (spec sections 4.3 and 4.6) are not part of the frontend sources; only
the 409 `duplicate_order` handler in `order/new/page.tsx` is.  `findActive`
scans only `status = new` orders for the exact (customer, day, weekStart)
tuple; a blocking duplicate makes `createOrder` fail with an error carrying
the conflicting order's id and portion count.
-/

inductive OrderStatus where
  | new
  | cancelled_by_customer
  | cancelled_by_operator
deriving DecidableEq

structure Order where
  id : Nat
  customerId : Nat
  day : String
  weekStart : String
  portionCount : Nat
  status : OrderStatus
deriving DecidableEq

structure DuplicateOrderError where
  orderId : Nat
  count : Nat
deriving DecidableEq

def findActive (orders : List Order) (customerId : Nat) (day weekStart : String) : Option Order :=
  orders.find? (fun o =>
    o.status == OrderStatus.new && o.customerId == customerId &&
    o.day == day && o.weekStart == weekStart)

def createOrder (orders : List Order) (newOrder : Order) :
    Except DuplicateOrderError (List Order) :=
  match findActive orders newOrder.customerId newOrder.day newOrder.weekStart with
  | some conflicting => .error { orderId := conflicting.id, count := conflicting.portionCount }
  | none => .ok (orders ++ [newOrder])

/-!
State predicates used as hypotheses.  `stateWFB` says every selection record
has distinct keys — automatic for a JS object, stated explicitly for the
association-list model.  `repeatSyncedB` is the repeat-mode invariant (weeks
beyond the first agree with week 0), recorded in both orientations because
`areSelectionMapsEqual` is not syntactically symmetric.  `week0EnabledB` is
the week-0-enabled invariant.
-/

def selMapWFB (m : SelectionMap) : Bool := (recordKeys m).Nodup

def stateWFB (s : PlannerState) : Bool :=
  s.weeks.all (fun w => selMapWFB w.selections)

def repeatSyncedB (s : PlannerState) : Bool :=
  match s.weeks.head? with
  | none => true
  | some w0 => s.weeks.all (fun w =>
      areSelectionMapsEqual w.selections w0.selections &&
      areSelectionMapsEqual w0.selections w.selections)

def week0EnabledB (weeks : List WeekPlan) : Bool :=
  match weeks.head? with
  | none => true
  | some w0 => w0.enabled

/-!
Supporting lemmas.
-/

theorem listMapIdxFrom_getElem? (f : Nat → α → β) (start : Nat) (l : List α) (i : Nat) :
    (listMapIdxFrom f start l)[i]? = (l[i]?).map (f (start + i)) := by
  induction l generalizing start i with
  | nil => simp [listMapIdxFrom]
  | cons a as ih =>
    cases i with
    | zero => simp [listMapIdxFrom]
    | succ n =>
      simp only [listMapIdxFrom, List.getElem?_cons_succ]
      rw [ih]
      ring_nf

theorem listMapIdx_getElem? (f : Nat → α → β) (l : List α) (i : Nat) :
    (listMapIdx f l)[i]? = (l[i]?).map (f i) := by
  simpa using listMapIdxFrom_getElem? f 0 l i

theorem listMapIdx_length (f : Nat → α → β) (l : List α) :
    (listMapIdx f l).length = l.length := by
  suffices h : ∀ start, (listMapIdxFrom f start l).length = l.length by exact h 0
  induction l with
  | nil => intro start; simp [listMapIdxFrom]
  | cons a as ih => intro start; simp [listMapIdxFrom, ih]

theorem ensureWeeks_length (ws : List WeekPlan) (c : Nat) (b : Option String) (r : Bool) :
    (ensureWeeks ws c b r).length = c := by
  simp [ensureWeeks]

theorem ensureWeeks_getElem? (ws : List WeekPlan) (c : Nat) (b : Option String) (r : Bool)
    (i : Nat) :
    (ensureWeeks ws c b r)[i]? =
      if i < c then some (ensureWeekBody ws b r i) else none := by
  by_cases h : i < c
  · simp [ensureWeeks, List.getElem?_map, List.getElem?_range, h]
  · simp [ensureWeeks, List.getElem?_map, List.getElem?_range, h]
    omega

/-- The selections of week 0 of the input list (empty when there is none). -/
def baseSelectionsOf (ws : List WeekPlan) : SelectionMap :=
  (ws.head?.map (fun w => w.selections)).getD []

theorem ensureWeekBody_enabled_zero (ws : List WeekPlan) (b : Option String) (r : Bool) :
    (ensureWeekBody ws b r 0).enabled = true := by
  simp [ensureWeekBody]

theorem ensureWeekBody_selections_zero (ws : List WeekPlan) (b : Option String) (r : Bool) :
    (ensureWeekBody ws b r 0).selections = baseSelectionsOf ws := by
  cases ws with
  | nil => simp [ensureWeekBody, baseSelectionsOf, cloneSelections, createWeekPlan]
  | cons w rest => simp [ensureWeekBody, baseSelectionsOf, cloneSelections]

theorem ensureWeekBody_enabled_succ (ws : List WeekPlan) (b : Option String) (r : Bool)
    (i : Nat) (hi : i ≠ 0) :
    (ensureWeekBody ws b r i).enabled = ((ws[i]?).map (fun w => w.enabled)).getD true := by
  simp [ensureWeekBody, hi]

theorem ensureWeekBody_selections_repeat (ws : List WeekPlan) (b : Option String)
    (i : Nat) (hi : i ≠ 0) :
    (ensureWeekBody ws b true i).selections = baseSelectionsOf ws := by
  cases ws with
  | nil => simp [ensureWeekBody, hi, baseSelectionsOf, cloneSelections, createWeekPlan]
  | cons w rest => simp [ensureWeekBody, hi, baseSelectionsOf, cloneSelections]

theorem ensureWeekBody_selections_norepeat (ws : List WeekPlan) (b : Option String)
    (i : Nat) (hi : i ≠ 0) :
    (ensureWeekBody ws b false i).selections = ((ws[i]?).map (fun w => w.selections)).getD [] := by
  cases h : ws[i]? with
  | none => simp [ensureWeekBody, hi, h, cloneSelections]
  | some w => simp [ensureWeekBody, hi, h, cloneSelections]

theorem ensureWeekBody_weekStart_succ (ws : List WeekPlan) (b : Option String) (r : Bool)
    (i : Nat) (hi : i ≠ 0) :
    (ensureWeekBody ws b r i).weekStart =
      (shiftWeekStart b i <|> ((ws[i]?).bind (fun w => w.weekStart))) := by
  simp [ensureWeekBody, hi]


theorem recordGet_isSome_iff_mem_keys (m : SelectionMap) (k : String) :
    (recordGet m k).isSome ↔ k ∈ recordKeys m := by
  constructor
  · intro h
    rw [recordGet] at h
    rcases hf : List.find? (fun e => e.1 == k) m with _ | e
    · rw [hf] at h; simp at h
    · have hmem := List.mem_of_find?_eq_some hf
      have hp := List.find?_some hf
      simp only [beq_iff_eq] at hp
      exact List.mem_map.mpr ⟨e, hmem, hp⟩
  · intro h
    rcases List.mem_map.mp h with ⟨e, he, hk⟩
    rw [recordGet]
    rcases hf : List.find? (fun x => x.1 == k) m with _ | e2
    · exfalso
      have := List.find?_eq_none.mp hf e he
      simp [hk] at this
    · simp [recordGet, hf]

theorem sme_refl (m : SelectionMap) : areSelectionMapsEqual m m = true := by
  simp only [areSelectionMapsEqual, Bool.and_eq_true, beq_self_eq_true, true_and,
    List.all_eq_true]
  intro k hk
  have h := (recordGet_isSome_iff_mem_keys m k).mpr hk
  rcases hget : recordGet m k with _ | a
  · rw [hget] at h; simp at h
  · simp

theorem awe_refl (ws : List WeekPlan) : areWeeksEqual ws ws = true := by
  simp only [areWeeksEqual, Bool.and_eq_true, beq_self_eq_true, true_and, List.all_eq_true]
  intro i hi
  simp only [List.mem_range] at hi
  rcases hget : ws[i]? with _ | w
  · rw [List.getElem?_eq_none_iff] at hget; omega
  · simp [sme_refl]

theorem sync_length (ws : List WeekPlan) (base : SelectionMap) :
    (syncRepeatedWeeks ws base).length = ws.length := by
  rw [syncRepeatedWeeks]
  split
  · rfl
  · next h1 =>
    dsimp only
    split
    · next h2 =>
      simp only [List.length_append, List.length_take, List.length_map, List.length_drop]
      omega
    · rfl

theorem sync_getElem?_zero (ws : List WeekPlan) (base : SelectionMap) :
    (syncRepeatedWeeks ws base)[0]? = ws[0]? := by
  rw [syncRepeatedWeeks]
  split
  · rfl
  · next h1 =>
    dsimp only
    split
    · next h2 =>
      cases ws with
      | nil => simp at h1
      | cons w rest => simp
    · rfl

theorem sync_getElem?_succ (ws : List WeekPlan) (base : SelectionMap) (i : Nat) :
    (syncRepeatedWeeks ws base)[i + 1]? = (ws[i + 1]?).map (fun current =>
      if areSelectionMapsEqual current.selections (cloneSelections base) then current
      else { current with selections := cloneSelections base }) := by
  rw [syncRepeatedWeeks]
  split
  · next h1 =>
    have h : ws[i + 1]? = none := by rw [List.getElem?_eq_none_iff]; omega
    simp [h]
  · next h1 =>
    dsimp only
    split
    · next h2 =>
      cases ws with
      | nil => simp at h1
      | cons w rest => simp
    · next h2 =>
      rcases hget : ws[i + 1]? with _ | current
      · simp
      · have hmem : current ∈ ws.drop 1 := by
          have hd : (ws.drop 1)[i]? = ws[1 + i]? := List.getElem?_drop ws 1 i
          rw [Nat.add_comm] at hd
          rw [← hd] at hget
          exact List.getElem?_mem hget
        rw [List.any_eq_true] at h2
        push_neg at h2
        have hc := h2 current hmem
        have hsme : areSelectionMapsEqual current.selections (cloneSelections base) = true := by
          revert hc
          cases areSelectionMapsEqual current.selections (cloneSelections base) <;> simp
        simp [hsme]

theorem sync_eq_self_of_all (ws : List WeekPlan) (base : SelectionMap)
    (h : ∀ w ∈ ws.drop 1, areSelectionMapsEqual w.selections (cloneSelections base) = true) :
    syncRepeatedWeeks ws base = ws := by
  rw [syncRepeatedWeeks]
  split
  · rfl
  · next h1 =>
    dsimp only
    split
    · next h2 =>
      exfalso
      rw [List.any_eq_true] at h2
      rcases h2 with ⟨w, hw, hne⟩
      rw [h w hw] at hne
      simp at hne
    · rfl

theorem sme_elim {a b : SelectionMap} (h : areSelectionMapsEqual a b = true) :
    (recordKeys a).length = (recordKeys b).length ∧
    ∀ k ∈ recordKeys a, ∃ va vb, recordGet a k = some va ∧ recordGet b k = some vb ∧
      va.offerId = vb.offerId ∧ va.day = vb.day ∧ va.portions = vb.portions := by
  rw [areSelectionMapsEqual, Bool.and_eq_true] at h
  rcases h with ⟨hlen, hall⟩
  refine ⟨by simpa using hlen, ?_⟩
  intro k hk
  rw [List.all_eq_true] at hall
  have hmatch := hall k hk
  rcases hga : recordGet a k with _ | va
  · rw [hga] at hmatch; simp at hmatch
  · rcases hgb : recordGet b k with _ | vb
    · rw [hga, hgb] at hmatch; simp at hmatch
    · rw [hga, hgb] at hmatch
      simp only [Bool.and_eq_true, beq_iff_eq] at hmatch
      exact ⟨va, vb, rfl, rfl, hmatch.1.1, hmatch.1.2, hmatch.2⟩

theorem sme_mem_keys {a b : SelectionMap} (h : areSelectionMapsEqual a b = true)
    {k : String} (hk : k ∈ recordKeys a) : k ∈ recordKeys b := by
  rcases (sme_elim h).2 k hk with ⟨va, vb, hga, hgb, _⟩
  exact (recordGet_isSome_iff_mem_keys b k).mp (by simp [hgb])

theorem sme_symm {a b : SelectionMap} (hwa : selMapWFB a = true) (hwb : selMapWFB b = true)
    (h : areSelectionMapsEqual a b = true) : areSelectionMapsEqual b a = true := by
  have hlen := (sme_elim h).1
  have hnda : (recordKeys a).Nodup := by simpa [selMapWFB] using hwa
  have hndb : (recordKeys b).Nodup := by simpa [selMapWFB] using hwb
  have hsub : (recordKeys a).toFinset ⊆ (recordKeys b).toFinset := by
    intro k hk
    rw [List.mem_toFinset] at hk ⊢
    exact sme_mem_keys h hk
  have hcard : (recordKeys b).toFinset.card ≤ (recordKeys a).toFinset.card := by
    rw [List.toFinset_card_of_nodup hnda, List.toFinset_card_of_nodup hndb]
    omega
  have hfeq := Finset.eq_of_subset_of_card_le hsub hcard
  have hmemba : ∀ k, k ∈ recordKeys b → k ∈ recordKeys a := by
    intro k hk
    have : k ∈ (recordKeys b).toFinset := List.mem_toFinset.mpr hk
    rw [← hfeq] at this
    exact List.mem_toFinset.mp this
  rw [areSelectionMapsEqual, Bool.and_eq_true]
  constructor
  · simp [hlen]
  · rw [List.all_eq_true]
    intro k hk
    rcases (sme_elim h).2 k (hmemba k hk) with ⟨va, vb, hga, hgb, h1, h2, h3⟩
    rw [hga, hgb]
    simp [h1, h2, h3]

theorem awe_elim {l r : List WeekPlan} (h : areWeeksEqual l r = true) :
    l.length = r.length ∧
    ∀ (i : Nat) (a b : WeekPlan), l[i]? = some a → r[i]? = some b →
      a.weekStart = b.weekStart ∧ a.enabled = b.enabled ∧
      areSelectionMapsEqual a.selections b.selections = true := by
  rw [areWeeksEqual, Bool.and_eq_true] at h
  rcases h with ⟨hlen, hall⟩
  refine ⟨by simpa using hlen, ?_⟩
  intro i a b hga hgb
  rw [List.all_eq_true] at hall
  have hi : i < l.length := by
    by_contra hcon
    rw [List.getElem?_eq_none_iff.mpr (by omega)] at hga
    simp at hga
  have hmatch := hall i (List.mem_range.mpr hi)
  rw [hga, hgb] at hmatch
  simp only [Bool.and_eq_true, beq_iff_eq] at hmatch
  exact ⟨hmatch.1.1, hmatch.1.2, hmatch.2⟩


theorem ratFloor_intCast (n : Int) : ratFloor ((n : Int) : Rat) = n := by
  rw [ratFloor]
  simp

theorem ratCeil_intCast (n : Int) : ratCeil ((n : Int) : Rat) = n := by
  rw [ratCeil]
  simp

theorem clampWeeksCount_eq (v : Rat) :
    clampWeeksCount v = (min (max (ratFloor v) 1) 8).toNat := by
  have h1 : clampNumber (.num v) 1 8 = some (min (max ((ratFloor v : Int) : Rat) 1) 8) := rfl
  rw [clampWeeksCount, h1]
  have hc : (min (max ((ratFloor v : Int) : Rat) 1) 8)
      = (((min (max (ratFloor v) 1) 8 : Int) : Rat)) := by
    push_cast
    rfl
  rw [hc]
  rw [jsNumToCount, ratCeil_intCast]

theorem clampWeeksCount_pos (v : Rat) : 1 ≤ clampWeeksCount v := by
  rw [clampWeeksCount_eq]
  omega

theorem clampWeeksCount_natCast (n : Nat) : clampWeeksCount (n : Rat) = min (max n 1) 8 := by
  rw [clampWeeksCount_eq]
  have h : ratFloor ((n : Int) : Rat) = (n : Int) := ratFloor_intCast n
  push_cast at h
  rw [h]
  omega

theorem baseSelectionsOf_ensure (ws : List WeekPlan) (c : Nat) (b : Option String) (r : Bool)
    (hc : 0 < c) : baseSelectionsOf (ensureWeeks ws c b r) = baseSelectionsOf ws := by
  have h0 : (ensureWeeks ws c b r).head? = some (ensureWeekBody ws b r 0) := by
    rw [List.head?_eq_getElem?, ensureWeeks_getElem?]
    simp [hc]
  rw [baseSelectionsOf, h0]
  simp [ensureWeekBody_selections_zero]

theorem ensureWeekBody_weekStart_zero (ws : List WeekPlan) (b : Option String) (r : Bool) :
    (ensureWeekBody ws b r 0).weekStart =
      (shiftWeekStart b 0 <|> (((ws[0]?).bind (fun w => w.weekStart)) <|>
        ((ws.head?.getD (createWeekPlan b)).weekStart <|> b))) := by
  simp [ensureWeekBody]

theorem ensureWeekBody_idem (ws : List WeekPlan) (c : Nat) (b : Option String) (r : Bool)
    (i : Nat) (hi : i < c) :
    ensureWeekBody (ensureWeeks ws c b r) b r i = ensureWeekBody ws b r i := by
  have hc : 0 < c := by omega
  have hE0 : (ensureWeeks ws c b r)[0]? = some (ensureWeekBody ws b r 0) := by
    rw [ensureWeeks_getElem?]; simp [hc]
  have hEhead : (ensureWeeks ws c b r).head? = some (ensureWeekBody ws b r 0) := by
    rw [List.head?_eq_getElem?]; exact hE0
  have hEi : (ensureWeeks ws c b r)[i]? = some (ensureWeekBody ws b r i) := by
    rw [ensureWeeks_getElem?]; simp [hi]
  rcases Nat.eq_zero_or_pos i with hi0 | hip
  · subst hi0
    have hsel : (ensureWeekBody (ensureWeeks ws c b r) b r 0).selections
        = (ensureWeekBody ws b r 0).selections := by
      rw [ensureWeekBody_selections_zero, ensureWeekBody_selections_zero,
        baseSelectionsOf_ensure ws c b r hc]
    have hen : (ensureWeekBody (ensureWeeks ws c b r) b r 0).enabled
        = (ensureWeekBody ws b r 0).enabled := by
      rw [ensureWeekBody_enabled_zero, ensureWeekBody_enabled_zero]
    have hws : (ensureWeekBody (ensureWeeks ws c b r) b r 0).weekStart
        = (ensureWeekBody ws b r 0).weekStart := by
      rw [ensureWeekBody_weekStart_zero (ensureWeeks ws c b r) b r, hE0, hEhead]
      simp only [Option.some_bind, Option.getD_some]
      rcases hcs : shiftWeekStart b 0 with _ | s
      · simp only [Option.none_orElse]
        have hX0 : (ensureWeekBody ws b r 0).weekStart =
            (((ws[0]?).bind (fun w => w.weekStart)) <|>
              ((ws.head?.getD (createWeekPlan b)).weekStart <|> b)) := by
          rw [ensureWeekBody_weekStart_zero, hcs, Option.none_orElse]
        rcases hX : (ensureWeekBody ws b r 0).weekStart with _ | s0
        · simp only [Option.none_orElse]
          rw [hX] at hX0
          rcases hw1 : (ws[0]?).bind (fun w => w.weekStart) with _ | u1
          · rcases hw2 : (ws.head?.getD (createWeekPlan b)).weekStart with _ | u2
            · rw [hw1, hw2] at hX0
              simp only [Option.none_orElse] at hX0
              exact hX0.symm
            · rw [hw1, hw2] at hX0; simp at hX0
          · rw [hw1] at hX0; simp at hX0
        · simp only [Option.some_orElse]
      · rw [ensureWeekBody_weekStart_zero, hcs]
        simp only [Option.some_orElse]
    rcases h1 : ensureWeekBody (ensureWeeks ws c b r) b r 0 with ⟨w1, s1, e1⟩
    rcases h2 : ensureWeekBody ws b r 0 with ⟨w2, s2, e2⟩
    rw [h1, h2] at hsel hen hws
    simp only [WeekPlan.mk.injEq]
    exact ⟨hws, hsel, hen⟩
  · have hine : i ≠ 0 := by omega
    have hsel : (ensureWeekBody (ensureWeeks ws c b r) b r i).selections
        = (ensureWeekBody ws b r i).selections := by
      cases r with
      | true =>
        rw [ensureWeekBody_selections_repeat _ _ _ hine,
          ensureWeekBody_selections_repeat _ _ _ hine,
          baseSelectionsOf_ensure ws c b true hc]
      | false =>
        rw [ensureWeekBody_selections_norepeat _ _ _ hine,
          ensureWeekBody_selections_norepeat _ _ _ hine, hEi]
        simpa using ensureWeekBody_selections_norepeat ws b i hine
    have hen : (ensureWeekBody (ensureWeeks ws c b r) b r i).enabled
        = (ensureWeekBody ws b r i).enabled := by
      rw [ensureWeekBody_enabled_succ _ _ _ _ hine, ensureWeekBody_enabled_succ _ _ _ _ hine,
        hEi]
      simpa using ensureWeekBody_enabled_succ ws b r i hine
    have hws : (ensureWeekBody (ensureWeeks ws c b r) b r i).weekStart
        = (ensureWeekBody ws b r i).weekStart := by
      rw [ensureWeekBody_weekStart_succ _ _ _ _ hine, hEi]
      simp only [Option.some_bind]
      rcases hcs : shiftWeekStart b i with _ | s
      · simp only [Option.none_orElse]
      · rw [ensureWeekBody_weekStart_succ _ _ _ _ hine, hcs]
        simp only [Option.some_orElse]
    rcases h1 : ensureWeekBody (ensureWeeks ws c b r) b r i with ⟨w1, s1, e1⟩
    rcases h2 : ensureWeekBody ws b r i with ⟨w2, s2, e2⟩
    rw [h1, h2] at hsel hen hws
    simp only [WeekPlan.mk.injEq]
    exact ⟨hws, hsel, hen⟩

theorem ensureWeeks_idem (ws : List WeekPlan) (c : Nat) (b : Option String) (r : Bool) :
    ensureWeeks (ensureWeeks ws c b r) c b r = ensureWeeks ws c b r := by
  apply List.ext_getElem?
  intro i
  rw [ensureWeeks_getElem?, ensureWeeks_getElem?]
  by_cases hi : i < c
  · simp only [hi, if_true]
    rw [ensureWeekBody_idem ws c b r i hi]
  · simp [hi]

theorem ensureWeeks_tail_selections_repeat (ws : List WeekPlan) (c : Nat) (b : Option String)
    {i : Nat} {x : WeekPlan} (h : (ensureWeeks ws c b true)[i + 1]? = some x) :
    x.selections = baseSelectionsOf ws := by
  rw [ensureWeeks_getElem?] at h
  by_cases hi : i + 1 < c
  · rw [if_pos hi, Option.some_inj] at h
    rw [← h]
    exact ensureWeekBody_selections_repeat ws b (i + 1) (by omega)
  · rw [if_neg hi] at h
    simp at h

theorem normalizeWeeks_repeat_sync (ws : List WeekPlan) (c : Nat) (b : Option String)
    (hc : 0 < c) : normalizeWeeks ws c b true = ensureWeeks ws c b true := by
  rw [normalizeWeeks]
  simp only [if_true]
  have hhead : (ensureWeeks ws c b true).head? = some (ensureWeekBody ws b true 0) := by
    rw [List.head?_eq_getElem?, ensureWeeks_getElem?]
    simp [hc]
  rw [hhead]
  simp only [Option.map_some', Option.getD_some, ensureWeekBody_selections_zero]
  apply sync_eq_self_of_all
  intro w hw
  rcases List.getElem?_of_mem hw with ⟨j, hj⟩
  have hj2 : (ensureWeeks ws c b true)[1 + j]? = some w := by
    rw [← List.getElem?_drop]
    exact hj
  rw [Nat.add_comm] at hj2
  rw [ensureWeeks_tail_selections_repeat ws c b hj2, cloneSelections]
  exact sme_refl (baseSelectionsOf ws)

/-- C3.  The week-normalization pipeline (ensureWeeks on the state's own
weeksCount, base weekStart and repeat flag, followed by the repeat
synchronization when repeat mode is on) is idempotent up to the code's own
structural equality check `areWeeksEqual`.  The `1 ≤ count` hypothesis
reflects that the pipeline dereferences `weeks[0]` (weeksCount is always
clamped to at least 1 by every writer). -/
theorem spec_normalization_idempotent (ws : List WeekPlan) (count : Nat)
    (base : Option String) (repeatWeeks : Bool) (hc : 1 ≤ count) :
    areWeeksEqual
      (normalizeWeeks (normalizeWeeks ws count base repeatWeeks) count base repeatWeeks)
      (normalizeWeeks ws count base repeatWeeks) = true := by
  cases repeatWeeks with
  | false =>
    have hf : ∀ xs, normalizeWeeks xs count base false = ensureWeeks xs count base false := by
      intro xs
      rw [normalizeWeeks]
      simp
    rw [hf, hf, ensureWeeks_idem]
    exact awe_refl _
  | true =>
    have hc0 : 0 < count := hc
    rw [normalizeWeeks_repeat_sync ws count base hc0,
      normalizeWeeks_repeat_sync (ensureWeeks ws count base true) count base hc0,
      ensureWeeks_idem]
    exact awe_refl _

/-- C3 witness: the idempotence theorem applied at a concrete base state. -/
theorem spec_normalization_idempotent_witness :
    1 ≤ 2 ∧
    areWeeksEqual
      (normalizeWeeks (normalizeWeeks [createWeekPlan none true [("a", ⟨"a", "d", 2⟩)]] 2 none true)
        2 none true)
      (normalizeWeeks [createWeekPlan none true [("a", ⟨"a", "d", 2⟩)]] 2 none true) = true :=
  ⟨by decide,
    spec_normalization_idempotent [createWeekPlan none true [("a", ⟨"a", "d", 2⟩)]] 2 none true
      (by decide)⟩

/-- Core shape shared by the week-0 selection editors (toggle day, change
portions, apply preset): re-derive the weeks, overwrite week 0's selections
with `sel`, then re-propagate when repeat mode is on. -/
theorem week0_edit_core (ws : List WeekPlan) (t : Nat) (tws : Option String) (r : Bool)
    (current : WeekPlan) (sel : SelectionMap)
    (hcur : (ensureWeeks ws t tws r).head? = some current) :
    (if r then syncRepeatedWeeks ((ensureWeeks ws t tws r).set 0 { current with selections := sel }) sel
      else (ensureWeeks ws t tws r).set 0 { current with selections := sel }).length = t ∧
    (if r then syncRepeatedWeeks ((ensureWeeks ws t tws r).set 0 { current with selections := sel }) sel
      else (ensureWeeks ws t tws r).set 0 { current with selections := sel })[0]?
      = some { current with selections := sel } ∧
    (∀ (i : Nat) (wi : WeekPlan), 1 ≤ i →
      (if r then syncRepeatedWeeks ((ensureWeeks ws t tws r).set 0 { current with selections := sel }) sel
        else (ensureWeeks ws t tws r).set 0 { current with selections := sel })[i]? = some wi →
      (r = true → areSelectionMapsEqual wi.selections sel = true) ∧
      (r = false → wi.selections = ((ws[i]?).map (fun w => w.selections)).getD []) ∧
      wi.enabled = ((ws[i]?).map (fun w => w.enabled)).getD true) := by
  have hlen0 : 0 < (ensureWeeks ws t tws r).length := by
    rw [List.head?_eq_getElem?] at hcur
    by_cases h : 0 < (ensureWeeks ws t tws r).length
    · exact h
    · rw [List.getElem?_eq_none_iff.mpr (by omega)] at hcur; simp at hcur
  have hset0 : ((ensureWeeks ws t tws r).set 0 { current with selections := sel })[0]?
      = some { current with selections := sel } := by
    rw [List.getElem?_set_self (by simpa using hlen0)]
  have hsetlen : ((ensureWeeks ws t tws r).set 0 { current with selections := sel }).length
      = t := by
    rw [List.length_set, ensureWeeks_length]
  have hseti : ∀ (i : Nat), 1 ≤ i →
      ((ensureWeeks ws t tws r).set 0 { current with selections := sel })[i]?
        = (ensureWeeks ws t tws r)[i]? := by
    intro i hi
    exact List.getElem?_set_ne (by omega)
  have htail : ∀ (i : Nat) (wi : WeekPlan), 1 ≤ i →
      ((ensureWeeks ws t tws r).set 0 { current with selections := sel })[i]? = some wi →
      wi.selections = (ensureWeekBody ws tws r i).selections ∧
      wi.enabled = ((ws[i]?).map (fun w => w.enabled)).getD true := by
    intro i wi hi hw
    rw [hseti i hi, ensureWeeks_getElem?] at hw
    by_cases hic : i < t
    · rw [if_pos hic, Option.some_inj] at hw
      subst hw
      exact ⟨rfl, ensureWeekBody_enabled_succ ws tws r i (by omega)⟩
    · rw [if_neg hic] at hw; simp at hw
  cases r with
  | false =>
    simp only [if_false, Bool.false_eq_true]
    refine ⟨hsetlen, hset0, ?_⟩
    intro i wi hi hw
    rcases htail i wi hi hw with ⟨hsel, hen⟩
    refine ⟨by intro h; simp at h, ?_, hen⟩
    intro _
    rw [hsel, ensureWeekBody_selections_norepeat ws tws i (by omega)]
  | true =>
    simp only [if_true]
    constructor
    · rw [sync_length, hsetlen]
    constructor
    · rw [sync_getElem?_zero, hset0]
    intro i wi hi hw
    rcases Nat.exists_eq_add_of_le hi with ⟨j, hj⟩
    subst hj
    rw [Nat.add_comm] at hw
    rw [sync_getElem?_succ] at hw
    rcases hw2 : ((ensureWeeks ws t tws true).set 0 { current with selections := sel })[j + 1]?
      with _ | w2
    · rw [hw2] at hw; simp at hw
    · rw [hw2] at hw
      simp only [Option.map_some', Option.some_inj] at hw
      have hj1 : 1 ≤ j + 1 := by omega
      rcases htail (j + 1) w2 hj1 hw2 with ⟨hsel2, hen2⟩
      by_cases hsme : areSelectionMapsEqual w2.selections (cloneSelections sel) = true
      · rw [if_pos hsme] at hw
        subst hw
        refine ⟨fun _ => ?_, fun h => by simp at h, by rw [Nat.add_comm]; exact hen2⟩
        rw [cloneSelections] at hsme
        exact hsme
      · rw [if_neg hsme] at hw
        subst hw
        refine ⟨fun _ => ?_, fun h => by simp at h, by rw [Nat.add_comm]; simpa using hen2⟩
        rw [cloneSelections]
        exact sme_refl sel

/-- Core shape shared by clearSelection and clearAll: week 0's selections are
replaced by `sel`, later weeks are kept (repeat off) or emptied and
re-propagated (repeat on). -/
theorem clear_edit_core (ws : List WeekPlan) (r : Bool) (sel : SelectionMap) :
    (if r then
        syncRepeatedWeeks (listMapIdx (fun index week =>
          if index = 0 then { week with selections := sel }
          else if !r then week else { week with selections := ([] : SelectionMap) }) ws) sel
      else (listMapIdx (fun index week =>
          if index = 0 then { week with selections := sel }
          else if !r then week else { week with selections := ([] : SelectionMap) }) ws)).length
      = ws.length ∧
    (∀ w0 : WeekPlan, ws[0]? = some w0 →
      (if r then
          syncRepeatedWeeks (listMapIdx (fun index week =>
            if index = 0 then { week with selections := sel }
            else if !r then week else { week with selections := ([] : SelectionMap) }) ws) sel
        else (listMapIdx (fun index week =>
            if index = 0 then { week with selections := sel }
            else if !r then week else { week with selections := ([] : SelectionMap) }) ws))[0]?
        = some { w0 with selections := sel }) ∧
    (∀ (i : Nat) (wi wi' : WeekPlan), 1 ≤ i →
      (if r then
          syncRepeatedWeeks (listMapIdx (fun index week =>
            if index = 0 then { week with selections := sel }
            else if !r then week else { week with selections := ([] : SelectionMap) }) ws) sel
        else (listMapIdx (fun index week =>
            if index = 0 then { week with selections := sel }
            else if !r then week else { week with selections := ([] : SelectionMap) }) ws))[i]?
        = some wi →
      ws[i]? = some wi' →
      (r = true → areSelectionMapsEqual wi.selections sel = true) ∧
      (r = false → wi.selections = wi'.selections) ∧
      wi.enabled = wi'.enabled) := by
  cases r with
  | false =>
    simp only [if_false, Bool.false_eq_true, Bool.not_false, if_true]
    refine ⟨by rw [listMapIdx_length], ?_, ?_⟩
    · intro w0 h0
      rw [listMapIdx_getElem?, h0]
      simp
    · intro i wi wi' hi hw hw'
      rw [listMapIdx_getElem?, hw'] at hw
      simp only [Option.map_some', Option.some_inj] at hw
      rw [if_neg (by omega)] at hw
      subst hw
      exact ⟨by intro h; simp at h, fun _ => rfl, rfl⟩
  | true =>
    simp only [if_true]
    refine ⟨?_, ?_, ?_⟩
    · rw [sync_length, listMapIdx_length]
    · intro w0 h0
      rw [sync_getElem?_zero, listMapIdx_getElem?, h0]
      simp
    · intro i wi wi' hi hw hw'
      rcases Nat.exists_eq_add_of_le hi with ⟨j, hj⟩
      subst hj
      rw [Nat.add_comm 1 j] at hw hw'
      rw [sync_getElem?_succ, listMapIdx_getElem?, hw'] at hw
      simp only [Option.map_some', Option.some_inj] at hw
      have hbody : (if j + 1 = 0 then { wi' with selections := sel }
          else if !true then wi' else { wi' with selections := ([] : SelectionMap) })
          = { wi' with selections := ([] : SelectionMap) } := by
        simp
      rw [hbody] at hw
      by_cases hsme : areSelectionMapsEqual
          ({ wi' with selections := ([] : SelectionMap) }).selections (cloneSelections sel) = true
      · rw [if_pos hsme] at hw
        subst hw
        refine ⟨fun _ => by rw [cloneSelections] at hsme; simpa using hsme,
          fun h => by simp at h, rfl⟩
      · rw [if_neg hsme] at hw
        subst hw
        exact ⟨fun _ => by rw [cloneSelections]; exact sme_refl sel, fun h => by simp at h, rfl⟩

/-- Every week-0 selection edit either leaves the state untouched or rewrites
the week list in one of the two core shapes (re-derive-and-set-week-0, or
map-and-clear), each followed by repeat propagation. -/
def Week0EditShape (s sNext : PlannerState) : Prop :=
  sNext = s ∨
  (∃ (tws : Option String) (current : WeekPlan) (sel : SelectionMap),
    (ensureWeeks s.weeks (clampWeeksCount (s.weeksCount : Rat)) tws s.repeatWeeks).head?
      = some current ∧
    sNext = { s with weeks :=
      if s.repeatWeeks then
        syncRepeatedWeeks ((ensureWeeks s.weeks (clampWeeksCount (s.weeksCount : Rat)) tws
          s.repeatWeeks).set 0 { current with selections := sel }) sel
      else (ensureWeeks s.weeks (clampWeeksCount (s.weeksCount : Rat)) tws
        s.repeatWeeks).set 0 { current with selections := sel } }) ∨
  (∃ sel : SelectionMap,
    sNext = { s with weeks :=
      if s.repeatWeeks then
        syncRepeatedWeeks (listMapIdx (fun index week =>
          if index = 0 then { week with selections := sel }
          else if !s.repeatWeeks then week
          else { week with selections := ([] : SelectionMap) }) s.weeks) sel
      else listMapIdx (fun index week =>
          if index = 0 then { week with selections := sel }
          else if !s.repeatWeeks then week
          else { week with selections := ([] : SelectionMap) }) s.weeks })

theorem week0_shape_of_ite (s : PlannerState) (tws : Option String) (current : WeekPlan)
    (sel : SelectionMap)
    (hcur : (ensureWeeks s.weeks (clampWeeksCount (s.weeksCount : Rat)) tws s.repeatWeeks).head?
      = some current) :
    Week0EditShape s
      (if areWeeksEqual
          (if s.repeatWeeks then
            syncRepeatedWeeks ((ensureWeeks s.weeks (clampWeeksCount (s.weeksCount : Rat)) tws
              s.repeatWeeks).set 0 { current with selections := sel }) sel
          else (ensureWeeks s.weeks (clampWeeksCount (s.weeksCount : Rat)) tws
            s.repeatWeeks).set 0 { current with selections := sel }) s.weeks
        then s
        else { s with weeks :=
          if s.repeatWeeks then
            syncRepeatedWeeks ((ensureWeeks s.weeks (clampWeeksCount (s.weeksCount : Rat)) tws
              s.repeatWeeks).set 0 { current with selections := sel }) sel
          else (ensureWeeks s.weeks (clampWeeksCount (s.weeksCount : Rat)) tws
            s.repeatWeeks).set 0 { current with selections := sel } }) := by
  by_cases hr : s.repeatWeeks = true
  · rw [if_pos hr]
    split
    · exact Or.inl rfl
    · exact Or.inr (Or.inl ⟨tws, current, sel, hcur, by rw [if_pos hr]⟩)
  · rw [if_neg hr]
    split
    · exact Or.inl rfl
    · exact Or.inr (Or.inl ⟨tws, current, sel, hcur, by rw [if_neg hr]⟩)

theorem week0_edit_shape (op : PlannerOp) (s : PlannerState)
    (hop : isWeek0SelectionEdit op = true) : Week0EditShape s (applyOp op s) := by
  cases op with
  | toggleDay menu day =>
    rw [applyOp, handleToggleDay]
    split
    · exact Or.inl rfl
    · split
      · exact Or.inl rfl
      · next oid =>
        dsimp only
        split
        · exact Or.inl rfl
        · next current hcur =>
          exact week0_shape_of_ite s _ current _ hcur
  | changePortions menu offerId next =>
    rw [applyOp, handleChangePortions]
    dsimp only
    split
    · exact Or.inl rfl
    · next current hcur =>
      split
      · exact Or.inl rfl
      · next sel0 hsel0 =>
        split
        · exact Or.inl rfl
        · exact Or.inr (Or.inl ⟨_, current, _, hcur, rfl⟩)
  | applyPreset menu preset =>
    rw [applyOp, handleApplyPreset.eq_def]
    split
    · exact Or.inl rfl
    · next m =>
      dsimp only
      split
      · exact Or.inl rfl
      · next w0 hcur =>
        exact Or.inr (Or.inl ⟨_, w0, _, hcur, rfl⟩)
  | clearSelection offerId =>
    rw [applyOp, handleClearSelection.eq_def]
    split
    · exact Or.inl rfl
    · next w0 h0 =>
      split
      · exact Or.inl rfl
      · exact Or.inr (Or.inr ⟨recordDelete w0.selections offerId, rfl⟩)
  | clearAll =>
    rw [applyOp, handleClearAll.eq_def]
    split
    · exact Or.inl rfl
    · next w0 h0 =>
      split
      · exact Or.inl rfl
      · exact Or.inr (Or.inr ⟨[], rfl⟩)
  | menuEffect menu => simp [isWeek0SelectionEdit] at hop
  | weekSelect weekStart => simp [isWeek0SelectionEdit] at hop
  | weeksCountChange value => simp [isWeek0SelectionEdit] at hop
  | repeatToggle value => simp [isWeek0SelectionEdit] at hop
  | updateWeek index updater => simp [isWeek0SelectionEdit] at hop
  | modalToggle activeIndex day => simp [isWeek0SelectionEdit] at hop
  | modalPortions activeIndex offerId portions => simp [isWeek0SelectionEdit] at hop
  | toggleWeekEnabled index enabled => simp [isWeek0SelectionEdit] at hop

theorem repeatSyncedB_elim {s : PlannerState} (h : repeatSyncedB s = true) :
    ∀ (i : Nat) (wi w0 : WeekPlan), s.weeks[i]? = some wi → s.weeks[0]? = some w0 →
      areSelectionMapsEqual wi.selections w0.selections = true ∧
      areSelectionMapsEqual w0.selections wi.selections = true := by
  intro i wi w0 hi h0
  rw [repeatSyncedB, List.head?_eq_getElem?, h0, List.all_eq_true] at h
  have hmem : wi ∈ s.weeks := List.getElem?_mem hi
  have := h wi hmem
  rw [Bool.and_eq_true] at this
  exact this

theorem week0_edit_propagation {s sNext : PlannerState} (hsh : Week0EditShape s sNext)
    (hrep : s.repeatWeeks = true) (hsync : repeatSyncedB s = true) :
    ∀ (i : Nat) (wi w0 : WeekPlan), 1 ≤ i → sNext.weeks[i]? = some wi →
      sNext.weeks[0]? = some w0 →
      areSelectionMapsEqual wi.selections w0.selections = true := by
  rcases hsh with h | ⟨tws, current, sel, hcur, h⟩ | ⟨sel, h⟩
  · subst h
    intro i wi w0 hi hwi hw0
    exact (repeatSyncedB_elim hsync i wi w0 hwi hw0).1
  · subst h
    intro i wi w0 hi hwi hw0
    dsimp only at hwi hw0
    rcases week0_edit_core s.weeks (clampWeeksCount (s.weeksCount : Rat)) tws s.repeatWeeks
      current sel hcur with ⟨hlen, h0, htail⟩
    rw [h0, Option.some_inj] at hw0
    have hsme := (htail i wi hi hwi).1 hrep
    rw [← hw0]
    exact hsme
  · subst h
    intro i wi w0 hi hwi hw0
    dsimp only at hwi hw0
    rcases clear_edit_core s.weeks s.repeatWeeks sel with ⟨hlen, h0, htail⟩
    rcases hx : s.weeks[0]? with _ | w0base
    · rw [List.getElem?_eq_none_iff] at hx
      have : ¬ (1 ≤ i) := by
        by_contra hcon
        rw [List.getElem?_eq_some_iff] at hwi
        rcases hwi with ⟨hlt, _⟩
        rw [hlen] at hlt
        omega
      exact absurd hi this
    · rw [h0 w0base hx, Option.some_inj] at hw0
      rcases hwx : s.weeks[i]? with _ | wibase
      · rw [List.getElem?_eq_none_iff] at hwx
        rw [List.getElem?_eq_some_iff] at hwi
        rcases hwi with ⟨hlt, _⟩
        rw [hlen] at hlt
        omega
      · have hsme := (htail i wi wibase hi hwi hwx).1 hrep
        rw [← hw0]
        exact hsme

theorem week0_edit_enabled_preserved {s sNext : PlannerState} (hsh : Week0EditShape s sNext) :
    ∀ (i : Nat) (wi wi' : WeekPlan), 1 ≤ i → sNext.weeks[i]? = some wi →
      s.weeks[i]? = some wi' → wi.enabled = wi'.enabled := by
  rcases hsh with h | ⟨tws, current, sel, hcur, h⟩ | ⟨sel, h⟩
  · subst h
    intro i wi wi' hi hwi hwi'
    rw [hwi, Option.some_inj] at hwi'
    rw [hwi']
  · subst h
    intro i wi wi' hi hwi hwi'
    dsimp only at hwi
    rcases week0_edit_core s.weeks (clampWeeksCount (s.weeksCount : Rat)) tws s.repeatWeeks
      current sel hcur with ⟨hlen, h0, htail⟩
    have hen := (htail i wi hi hwi).2.2
    rw [hwi'] at hen
    simpa using hen
  · subst h
    intro i wi wi' hi hwi hwi'
    dsimp only at hwi
    rcases clear_edit_core s.weeks s.repeatWeeks sel with ⟨hlen, h0, htail⟩
    exact (htail i wi wi' hi hwi hwi').2.2

theorem week0_edit_off_independent {s sNext : PlannerState} (hsh : Week0EditShape s sNext)
    (hrep : s.repeatWeeks = false) :
    ∀ (i : Nat) (wi wi' : WeekPlan), 1 ≤ i → sNext.weeks[i]? = some wi →
      s.weeks[i]? = some wi' → wi.selections = wi'.selections := by
  rcases hsh with h | ⟨tws, current, sel, hcur, h⟩ | ⟨sel, h⟩
  · subst h
    intro i wi wi' hi hwi hwi'
    rw [hwi, Option.some_inj] at hwi'
    rw [hwi']
  · subst h
    intro i wi wi' hi hwi hwi'
    dsimp only at hwi
    rcases week0_edit_core s.weeks (clampWeeksCount (s.weeksCount : Rat)) tws s.repeatWeeks
      current sel hcur with ⟨hlen, h0, htail⟩
    have hsel := (htail i wi hi hwi).2.1 hrep
    rw [hwi'] at hsel
    simpa using hsel
  · subst h
    intro i wi wi' hi hwi hwi'
    dsimp only at hwi
    rcases clear_edit_core s.weeks s.repeatWeeks sel with ⟨hlen, h0, htail⟩
    exact (htail i wi wi' hi hwi hwi').2.1 hrep

theorem modal_rejects_when_repeat (s : PlannerState) (hrep : s.repeatWeeks = true)
    (k : Nat) (hk : 1 ≤ k) (day : MenuDay) (offerId : String) (n : Int) :
    modalToggleDay s k day = s ∧ modalChangePortions s k offerId n = s := by
  have he : modalIsEditable s.repeatWeeks k = false := by
    rw [modalIsEditable, hrep]
    simp only [Bool.not_true, Bool.false_or]
    rw [beq_eq_false_iff_ne]
    omega
  constructor
  · rw [modalToggleDay, he]
    simp
  · rw [modalChangePortions, he]
    simp

theorem sync_ensure_self (ws : List WeekPlan) (c : Nat) (b : Option String) (hc : 0 < c) :
    syncRepeatedWeeks (ensureWeeks ws c b true)
      (((ensureWeeks ws c b true).head?.map (fun w => w.selections)).getD [])
      = ensureWeeks ws c b true := by
  have h := normalizeWeeks_repeat_sync ws c b hc
  rw [normalizeWeeks] at h
  simpa using h

theorem handleRepeatToggle_on_weeks (s : PlannerState) (hrep : s.repeatWeeks = false)
    (hc : 1 ≤ s.weeksCount) :
    (handleRepeatToggle true s).weeks
      = ensureWeeks s.weeks s.weeksCount (s.weeks.head?.bind (fun w => w.weekStart)) true := by
  rw [handleRepeatToggle]
  rw [if_neg (by rw [hrep]; simp)]
  dsimp only
  rw [if_pos rfl]
  exact sync_ensure_self s.weeks s.weeksCount (s.weeks.head?.bind (fun w => w.weekStart)) hc

/-- C1.  With repeat mode on, every week-0 selection edit (toggle a day,
change portions, apply a preset, clear one or all selections) leaves every
week 1..N-1 holding a deep copy of week 0's selection set (equality of
selection records as maps), each of those weeks keeps its own enabled flag,
and the modal's direct selection edits to a week k > 0 are rejected and
leave the state unchanged.  `repeatSyncedB` is the repeat-mode invariant
(already-propagated selections), which every effective edit re-establishes
and no-op paths rely on. -/
theorem spec_repeat_on_propagation (s : PlannerState) (op : PlannerOp)
    (hrep : s.repeatWeeks = true) (hsync : repeatSyncedB s = true)
    (hop : isWeek0SelectionEdit op = true) :
    (∀ (i : Nat) (wi w0 : WeekPlan), 1 ≤ i → (applyOp op s).weeks[i]? = some wi →
      (applyOp op s).weeks[0]? = some w0 →
      areSelectionMapsEqual wi.selections w0.selections = true) ∧
    (∀ (i : Nat) (wi wi' : WeekPlan), 1 ≤ i → (applyOp op s).weeks[i]? = some wi →
      s.weeks[i]? = some wi' → wi.enabled = wi'.enabled) ∧
    (∀ (k : Nat) (day : MenuDay) (offerId : String) (n : Int), 1 ≤ k →
      modalToggleDay s k day = s ∧ modalChangePortions s k offerId n = s) := by
  refine ⟨week0_edit_propagation (week0_edit_shape op s hop) hrep hsync,
    week0_edit_enabled_preserved (week0_edit_shape op s hop), ?_⟩
  intro k day offerId n hk
  exact modal_rejects_when_repeat s hrep k hk day offerId n

/-- A concrete repeat-mode state used to witness C1. -/
def repeatOnState : PlannerState :=
  { weeks := [{ weekStart := none, selections := [("a", ⟨"a", "d", 1⟩)], enabled := true },
              { weekStart := none, selections := [("a", ⟨"a", "d", 1⟩)], enabled := false }]
    weeksCount := 2
    repeatWeeks := true
    address := ""
    promoCode := "" }

/-- C1 witness: the propagation theorem applied to a concrete synced state
and the clear-all edit. -/
theorem spec_repeat_on_propagation_witness :
    repeatOnState.repeatWeeks = true ∧ repeatSyncedB repeatOnState = true ∧
    isWeek0SelectionEdit PlannerOp.clearAll = true ∧
    ((∀ (i : Nat) (wi w0 : WeekPlan), 1 ≤ i →
        (applyOp PlannerOp.clearAll repeatOnState).weeks[i]? = some wi →
        (applyOp PlannerOp.clearAll repeatOnState).weeks[0]? = some w0 →
        areSelectionMapsEqual wi.selections w0.selections = true) ∧
      (∀ (i : Nat) (wi wi' : WeekPlan), 1 ≤ i →
        (applyOp PlannerOp.clearAll repeatOnState).weeks[i]? = some wi →
        repeatOnState.weeks[i]? = some wi' → wi.enabled = wi'.enabled) ∧
      (∀ (k : Nat) (day : MenuDay) (offerId : String) (n : Int), 1 ≤ k →
        modalToggleDay repeatOnState k day = repeatOnState ∧
        modalChangePortions repeatOnState k offerId n = repeatOnState)) :=
  ⟨by decide, by decide, by decide,
    spec_repeat_on_propagation repeatOnState PlannerOp.clearAll (by decide) (by decide) (by decide)⟩

/-- C2.  With repeat mode off, week-0 selection edits leave the selection
sets of weeks 1..N-1 untouched; and switching repeat mode from off to on
immediately overwrites weeks 1..N-1 with a copy of week 0's current
selections (one-time synchronization).  The `1 ≤ weeksCount` hypothesis
reflects the handler's unclamped `weeks[0]` access (every writer keeps
weeksCount at least 1). -/
theorem spec_repeat_off_independence (s : PlannerState) (hrep : s.repeatWeeks = false) :
    (∀ op : PlannerOp, isWeek0SelectionEdit op = true →
      ∀ (i : Nat) (wi wi' : WeekPlan), 1 ≤ i → (applyOp op s).weeks[i]? = some wi →
        s.weeks[i]? = some wi' → wi.selections = wi'.selections) ∧
    (1 ≤ s.weeksCount →
      (handleRepeatToggle true s).weeks.length = s.weeksCount ∧
      ((handleRepeatToggle true s).weeks[0]?).map (fun w => w.selections)
        = some (baseSelectionsOf s.weeks) ∧
      (∀ (i : Nat) (wi : WeekPlan), 1 ≤ i → (handleRepeatToggle true s).weeks[i]? = some wi →
        wi.selections = baseSelectionsOf s.weeks)) := by
  constructor
  · intro op hop
    exact week0_edit_off_independent (week0_edit_shape op s hop) hrep
  · intro hc
    rw [handleRepeatToggle_on_weeks s hrep hc]
    refine ⟨ensureWeeks_length _ _ _ _, ?_, ?_⟩
    · rw [ensureWeeks_getElem?, if_pos (by omega)]
      simp [ensureWeekBody_selections_zero]
    · intro i wi hi hwi
      rw [ensureWeeks_getElem?] at hwi
      by_cases hic : i < s.weeksCount
      · rw [if_pos hic, Option.some_inj] at hwi
        rw [← hwi, ensureWeekBody_selections_repeat _ _ _ (by omega)]
      · rw [if_neg hic] at hwi
        simp at hwi

/-- A concrete repeat-off state used to witness C2. -/
def repeatOffState : PlannerState :=
  { weeks := [{ weekStart := none, selections := [("a", ⟨"a", "d", 1⟩)], enabled := true },
              { weekStart := none, selections := [("b", ⟨"b", "e", 2⟩)], enabled := true }]
    weeksCount := 2
    repeatWeeks := false
    address := ""
    promoCode := "" }

/-- C2 witness: the independence theorem applied to a concrete repeat-off
state. -/
theorem spec_repeat_off_independence_witness :
    repeatOffState.repeatWeeks = false ∧
    ((∀ op : PlannerOp, isWeek0SelectionEdit op = true →
      ∀ (i : Nat) (wi wi' : WeekPlan), 1 ≤ i →
        (applyOp op repeatOffState).weeks[i]? = some wi →
        repeatOffState.weeks[i]? = some wi' → wi.selections = wi'.selections) ∧
    (1 ≤ repeatOffState.weeksCount →
      (handleRepeatToggle true repeatOffState).weeks.length = repeatOffState.weeksCount ∧
      ((handleRepeatToggle true repeatOffState).weeks[0]?).map (fun w => w.selections)
        = some (baseSelectionsOf repeatOffState.weeks) ∧
      (∀ (i : Nat) (wi : WeekPlan), 1 ≤ i →
        (handleRepeatToggle true repeatOffState).weeks[i]? = some wi →
        wi.selections = baseSelectionsOf repeatOffState.weeks))) :=
  ⟨by decide, spec_repeat_off_independence repeatOffState (by decide)⟩

/-- C5.  Changing weeksCount truncates or extends the week list to the new
clamped count: weeks in the retained range keep their enabled flag and their
selections (literally with repeat off; as equal selection maps with repeat
on, where they already equal week 0's set), week 0 keeps its selections and
stays enabled, and appended weeks are enabled and carry a copy of week 0's
selections under repeat mode or empty selections otherwise. -/
theorem spec_weeks_count_change (s : PlannerState) (value : Rat)
    (hsync : repeatSyncedB s = true)
    (ht : clampWeeksCount value ≠ s.weeksCount) :
    (handleWeeksCountChange value s).weeksCount = clampWeeksCount value ∧
    (handleWeeksCountChange value s).weeks.length = clampWeeksCount value ∧
    (∀ (i : Nat) (wi wi' : WeekPlan), (handleWeeksCountChange value s).weeks[i]? = some wi →
      s.weeks[i]? = some wi' →
      (i = 0 → wi.enabled = true ∧ wi.selections = wi'.selections) ∧
      (1 ≤ i → wi.enabled = wi'.enabled) ∧
      (1 ≤ i → s.repeatWeeks = false → wi.selections = wi'.selections) ∧
      (1 ≤ i → s.repeatWeeks = true →
        areSelectionMapsEqual wi.selections wi'.selections = true)) ∧
    (∀ (i : Nat) (wi : WeekPlan), s.weeks.length ≤ i →
      (handleWeeksCountChange value s).weeks[i]? = some wi →
      wi.enabled = true ∧
      wi.selections = (if s.repeatWeeks then baseSelectionsOf s.weeks else [])) := by
  have hw : handleWeeksCountChange value s = { s with
      weeksCount := clampWeeksCount value
      weeks := ensureWeeks s.weeks (clampWeeksCount value)
        (s.weeks.head?.bind (fun w => w.weekStart)) s.repeatWeeks } := by
    rw [handleWeeksCountChange]
    dsimp only
    rw [if_neg ht]
  rw [hw]
  dsimp only
  refine ⟨rfl, ensureWeeks_length _ _ _ _, ?_, ?_⟩
  · intro i wi wi' hwi hwi'
    rw [ensureWeeks_getElem?] at hwi
    by_cases hic : i < clampWeeksCount value
    case neg => rw [if_neg hic] at hwi; simp at hwi
    rw [if_pos hic, Option.some_inj] at hwi
    subst hwi
    have hhead : s.weeks.head? = s.weeks[0]? := List.head?_eq_getElem? s.weeks
    refine ⟨?_, ?_, ?_, ?_⟩
    · intro h0
      subst h0
      refine ⟨ensureWeekBody_enabled_zero _ _ _, ?_⟩
      rw [ensureWeekBody_selections_zero, baseSelectionsOf, hhead, hwi']
      rfl
    · intro hi
      rw [ensureWeekBody_enabled_succ _ _ _ _ (by omega), hwi']
      rfl
    · intro hi hrep
      rw [hrep, ensureWeekBody_selections_norepeat _ _ _ (by omega), hwi']
      rfl
    · intro hi hrep
      rw [hrep, ensureWeekBody_selections_repeat _ _ _ (by omega)]
      rcases h0x : s.weeks[0]? with _ | w0
      · rw [List.getElem?_eq_none_iff] at h0x
        rw [List.getElem?_eq_some_iff] at hwi'
        rcases hwi' with ⟨hlt, _⟩
        omega
      · have hs := (repeatSyncedB_elim hsync i wi' w0 hwi' h0x).2
        rw [baseSelectionsOf, hhead, h0x]
        simpa using hs
  · intro i wi hge hwi
    rw [ensureWeeks_getElem?] at hwi
    by_cases hic : i < clampWeeksCount value
    case neg => rw [if_neg hic] at hwi; simp at hwi
    rw [if_pos hic, Option.some_inj] at hwi
    subst hwi
    have hnone : s.weeks[i]? = none := by rw [List.getElem?_eq_none_iff]; omega
    rcases Nat.eq_zero_or_pos i with h0 | hpos
    · subst h0
      have hempty : s.weeks = [] := by
        cases hws : s.weeks with
        | nil => rfl
        | cons a l => rw [hws] at hge; simp at hge
      refine ⟨ensureWeekBody_enabled_zero _ _ _, ?_⟩
      rw [ensureWeekBody_selections_zero, hempty]
      cases s.repeatWeeks <;> simp [baseSelectionsOf]
    · refine ⟨?_, ?_⟩
      · rw [ensureWeekBody_enabled_succ _ _ _ _ (by omega), hnone]
        rfl
      · cases hr : s.repeatWeeks with
        | true =>
          rw [ensureWeekBody_selections_repeat _ _ _ (by omega)]
          simp
        | false =>
          rw [ensureWeekBody_selections_norepeat _ _ _ (by omega), hnone]
          simp

/-- A concrete synced state used to witness C5. -/
def countChangeState : PlannerState :=
  { weeks := [{ weekStart := none, selections := [("a", ⟨"a", "d", 1⟩)], enabled := true },
              { weekStart := none, selections := [("a", ⟨"a", "d", 1⟩)], enabled := false }]
    weeksCount := 2
    repeatWeeks := true
    address := ""
    promoCode := "" }

/-- C5 witness: the weeksCount-change theorem applied at a concrete state
and the value 3. -/
theorem spec_weeks_count_change_witness :
    repeatSyncedB countChangeState = true ∧
    clampWeeksCount 3 ≠ countChangeState.weeksCount ∧
    ((handleWeeksCountChange 3 countChangeState).weeksCount = clampWeeksCount 3 ∧
    (handleWeeksCountChange 3 countChangeState).weeks.length = clampWeeksCount 3 ∧
    (∀ (i : Nat) (wi wi' : WeekPlan),
      (handleWeeksCountChange 3 countChangeState).weeks[i]? = some wi →
      countChangeState.weeks[i]? = some wi' →
      (i = 0 → wi.enabled = true ∧ wi.selections = wi'.selections) ∧
      (1 ≤ i → wi.enabled = wi'.enabled) ∧
      (1 ≤ i → countChangeState.repeatWeeks = false → wi.selections = wi'.selections) ∧
      (1 ≤ i → countChangeState.repeatWeeks = true →
        areSelectionMapsEqual wi.selections wi'.selections = true)) ∧
    (∀ (i : Nat) (wi : WeekPlan), countChangeState.weeks.length ≤ i →
      (handleWeeksCountChange 3 countChangeState).weeks[i]? = some wi →
      wi.enabled = true ∧
      wi.selections =
        (if countChangeState.repeatWeeks then baseSelectionsOf countChangeState.weeks else []))) :=
  ⟨by decide, by decide, spec_weeks_count_change countChangeState 3 (by decide) (by decide)⟩

theorem week0EnabledB_iff (ws : List WeekPlan) : week0EnabledB ws = true ↔
    (∀ w0 : WeekPlan, ws[0]? = some w0 → w0.enabled = true) := by
  rw [week0EnabledB]
  rcases hh : ws.head? with _ | w0
  · rw [List.head?_eq_getElem?] at hh
    simp [hh]
  · rw [List.head?_eq_getElem?] at hh
    simp [hh]

theorem week0EnabledB_ensure (ws : List WeekPlan) (c : Nat) (b : Option String) (r : Bool) :
    week0EnabledB (ensureWeeks ws c b r) = true := by
  rw [week0EnabledB_iff]
  intro w0 hw0
  rw [ensureWeeks_getElem?] at hw0
  by_cases hc : 0 < c
  · rw [if_pos hc, Option.some_inj] at hw0
    rw [← hw0]
    exact ensureWeekBody_enabled_zero ws b r
  · rw [if_neg hc] at hw0
    simp at hw0

theorem week0EnabledB_sync (ws : List WeekPlan) (base : SelectionMap)
    (h : week0EnabledB ws = true) : week0EnabledB (syncRepeatedWeeks ws base) = true := by
  rw [week0EnabledB_iff] at h ⊢
  intro w0 hw0
  rw [sync_getElem?_zero] at hw0
  exact h w0 hw0

theorem ensure_head_enabled {ws : List WeekPlan} {c : Nat} {b : Option String} {r : Bool}
    {current : WeekPlan} (hcur : (ensureWeeks ws c b r).head? = some current) :
    current.enabled = true := by
  rw [List.head?_eq_getElem?] at hcur
  exact (week0EnabledB_iff _).mp (week0EnabledB_ensure ws c b r) current hcur

theorem menuPruneStage_getElem?_zero (menu : Option MenuResponse) (weeks : List WeekPlan) :
    (menuPruneStage menu weeks)[0]? = (weeks[0]?).map (fun w0 =>
      match menu with
      | none => w0
      | some m =>
        let filteredSelections := w0.selections.filter (fun e => (menuValidIds m).contains e.1)
        if areSelectionMapsEqual filteredSelections w0.selections then w0
        else { w0 with selections := filteredSelections }) := by
  rw [menuPruneStage.eq_def]
  rcases menu with _ | m
  · simp
  · rcases hh : weeks.head? with _ | w0
    · rw [List.head?_eq_getElem?] at hh
      simp [hh]
    · rw [List.head?_eq_getElem?] at hh
      rw [hh]
      dsimp only
      split
      · next hsme =>
        rw [hh, Option.map_some', if_pos hsme]
      · next hsme =>
        rw [Option.map_some', if_neg hsme,
          List.getElem?_set_self (by rw [List.getElem?_eq_some_iff] at hh; exact hh.1)]

theorem menuPruneStage_getElem?_tail (menu : Option MenuResponse) (weeks : List WeekPlan)
    (i : Nat) (hi : 1 ≤ i) : (menuPruneStage menu weeks)[i]? = weeks[i]? := by
  rw [menuPruneStage.eq_def]
  rcases menu with _ | m
  · simp
  · rcases hh : weeks.head? with _ | w0
    · simp
    · dsimp only
      split
      · rfl
      · exact List.getElem?_set_ne (by omega)

theorem menuPruneStage_length (menu : Option MenuResponse) (weeks : List WeekPlan) :
    (menuPruneStage menu weeks).length = weeks.length := by
  rw [menuPruneStage.eq_def]
  rcases menu with _ | m
  · simp
  · rcases hh : weeks.head? with _ | w0
    · simp
    · dsimp only
      split
      · rfl
      · exact List.length_set _ _ _

theorem menuSyncStage_getElem?_zero (r : Bool) (weeks : List WeekPlan) :
    (menuSyncStage r weeks)[0]? = weeks[0]? := by
  rw [menuSyncStage]
  split
  · rcases hh : weeks.head? with _ | w0
    · rfl
    · dsimp only
      split
      · exact sync_getElem?_zero weeks w0.selections
      · rfl
  · rfl

theorem menuSyncStage_length (r : Bool) (weeks : List WeekPlan) :
    (menuSyncStage r weeks).length = weeks.length := by
  rw [menuSyncStage]
  split
  · rcases hh : weeks.head? with _ | w0
    · rfl
    · dsimp only
      split
      · exact sync_length weeks w0.selections
      · rfl
  · rfl

theorem week0_shape_enabled {s sNext : PlannerState} (hsh : Week0EditShape s sNext)
    (h : week0EnabledB s.weeks = true) : week0EnabledB sNext.weeks = true := by
  rcases hsh with heq | ⟨tws, current, sel, hcur, heq⟩ | ⟨sel, heq⟩
  · subst heq
    exact h
  · subst heq
    rcases week0_edit_core s.weeks (clampWeeksCount (s.weeksCount : Rat)) tws s.repeatWeeks
      current sel hcur with ⟨hlen, h0, htail⟩
    rw [week0EnabledB_iff]
    intro w0 hw0
    dsimp only at hw0
    rw [h0, Option.some_inj] at hw0
    subst hw0
    have hce := ensure_head_enabled hcur
    exact hce
  · subst heq
    rcases clear_edit_core s.weeks s.repeatWeeks sel with ⟨hlen, h0, htail⟩
    rw [week0EnabledB_iff]
    intro w0 hw0
    dsimp only at hw0
    rcases hx : s.weeks[0]? with _ | w0base
    · rw [List.getElem?_eq_some_iff] at hw0
      rcases hw0 with ⟨hlt, _⟩
      rw [hlen] at hlt
      rw [List.getElem?_eq_none_iff] at hx
      omega
    · rw [h0 w0base hx, Option.some_inj] at hw0
      subst hw0
      exact (week0EnabledB_iff _).mp h w0base hx

theorem updateWeekPlan_week0Enabled (index : Nat) (updater : WeekPlan → WeekPlan)
    (s : PlannerState) (h : week0EnabledB s.weeks = true) :
    week0EnabledB (updateWeekPlan index updater s).weeks = true := by
  have hmap : ∀ upd : WeekPlan, week0EnabledB (listMapIdx (fun idx week =>
      if idx = index then { upd with enabled := if idx = 0 then true else upd.enabled }
      else week) (ensureWeeks s.weeks (clampWeeksCount (s.weeksCount : Rat))
        (s.weeks.head?.bind (fun w => w.weekStart)) s.repeatWeeks)) = true := by
    intro upd
    rw [week0EnabledB_iff]
    intro w0 hw0
    have hc : 0 < clampWeeksCount ((s.weeksCount : Nat) : Rat) := clampWeeksCount_pos _
    rw [listMapIdx_getElem?, ensureWeeks_getElem?, if_pos hc] at hw0
    simp only [Option.map_some', Option.some_inj] at hw0
    subst hw0
    by_cases hidx : (0 : Nat) = index
    · rw [if_pos hidx]
      simp
    · rw [if_neg hidx]
      exact ensureWeekBody_enabled_zero s.weeks _ s.repeatWeeks
  rw [updateWeekPlan]
  dsimp only
  split
  · exact h
  · split
    · exact h
    · next w hw =>
      split
      · split
        · exact h
        · exact week0EnabledB_sync _ _ (hmap _)
      · split
        · exact h
        · exact hmap _

theorem applyMenuEffect_week0Enabled (menu : Option MenuResponse) (s : PlannerState)
    (h : week0EnabledB s.weeks = true) :
    week0EnabledB (applyMenuEffect menu s).weeks = true := by
  rw [applyMenuEffect]
  split
  · exact h
  · rw [week0EnabledB_iff]
    intro w0 hw0
    dsimp only at hw0
    rw [menuSyncStage_getElem?_zero, menuPruneStage_getElem?_zero] at hw0
    have hc : 0 < clampWeeksCount ((s.weeksCount : Nat) : Rat) := clampWeeksCount_pos _
    rw [ensureWeeks_getElem?, if_pos hc] at hw0
    simp only [Option.map_some', Option.some_inj] at hw0
    subst hw0
    have hwe : (ensureWeekBody s.weeks
        ((menu.bind (fun m => m.weekStart)) <|> (s.weeks.head?.bind (fun w => w.weekStart)))
        s.repeatWeeks 0).enabled = true :=
      ensureWeekBody_enabled_zero s.weeks _ s.repeatWeeks
    rcases menu with _ | m
    · exact hwe
    · dsimp only
      split
      · exact hwe
      · exact hwe

theorem applyOp_week0Enabled (op : PlannerOp) (s : PlannerState)
    (h : week0EnabledB s.weeks = true) : week0EnabledB (applyOp op s).weeks = true := by
  cases op with
  | menuEffect menu => exact applyMenuEffect_week0Enabled menu s h
  | toggleDay menu day =>
    exact week0_shape_enabled (week0_edit_shape (.toggleDay menu day) s rfl) h
  | changePortions menu offerId next =>
    exact week0_shape_enabled (week0_edit_shape (.changePortions menu offerId next) s rfl) h
  | applyPreset menu preset =>
    exact week0_shape_enabled (week0_edit_shape (.applyPreset menu preset) s rfl) h
  | clearSelection offerId =>
    exact week0_shape_enabled (week0_edit_shape (.clearSelection offerId) s rfl) h
  | clearAll =>
    exact week0_shape_enabled (week0_edit_shape .clearAll s rfl) h
  | weekSelect weekStart =>
    rw [applyOp, handleWeekSelect]
    exact week0EnabledB_ensure _ _ _ _
  | weeksCountChange value =>
    rw [applyOp, handleWeeksCountChange]
    dsimp only
    split
    · exact h
    · exact week0EnabledB_ensure _ _ _ _
  | repeatToggle value =>
    rw [applyOp, handleRepeatToggle]
    split
    · exact h
    · dsimp only
      split
      · exact week0EnabledB_sync _ _ (week0EnabledB_ensure _ _ _ _)
      · exact week0EnabledB_ensure _ _ _ _
  | updateWeek index updater =>
    rw [applyOp]
    exact updateWeekPlan_week0Enabled index updater s h
  | modalToggle activeIndex day =>
    rw [applyOp, modalToggleDay]
    split
    · exact h
    · exact updateWeekPlan_week0Enabled _ _ _ h
  | modalPortions activeIndex offerId portions =>
    rw [applyOp, modalChangePortions]
    split
    · exact h
    · exact updateWeekPlan_week0Enabled _ _ _ h
  | toggleWeekEnabled index enabled =>
    rw [applyOp, handleToggleWeekEnabled]
    split
    · exact h
    · exact updateWeekPlan_week0Enabled _ _ _ h

theorem loadInitialState_week0Enabled (stored : Option JsVal) :
    week0EnabledB (loadInitialState stored).weeks = true := by
  rcases stored with _ | parsed
  · decide
  · rw [loadInitialState]
    split
    · exact week0EnabledB_ensure _ _ _ _
    · exact week0EnabledB_ensure _ _ _ _

theorem weeksPayload_head (s : PlannerState) :
    (weeksPayload s).head?
      = some (weeksPayloadBody s (s.weeks.head?.bind (fun w => w.weekStart)) 0) := by
  rw [weeksPayload]
  have hc : 0 < clampWeeksCount ((s.weeksCount : Nat) : Rat) := clampWeeksCount_pos _
  rw [List.head?_eq_getElem?, List.getElem?_map, List.getElem?_range hc]
  rfl

theorem weeksPayloadBody_zero_enabled (s : PlannerState) (b : Option String) :
    (weeksPayloadBody s b 0).enabled = true := by
  rw [weeksPayloadBody]
  dsimp only
  rw [if_pos rfl]

/-- C9.  Week 0 is always enabled: starting from any state whose first week
is enabled, every planner operation (the menu normalization effect, every
selection edit, weeksCount change, repeat toggle, per-week update, modal
edit, week enable toggle) preserves that invariant; restoring persisted
state establishes it for every possible stored value; and the first entry
of the calculation request payload is always present and marked enabled. -/
theorem spec_week0_always_enabled (op : PlannerOp) (s : PlannerState) (stored : Option JsVal)
    (h : week0EnabledB s.weeks = true) :
    week0EnabledB (applyOp op s).weeks = true ∧
    week0EnabledB (loadInitialState stored).weeks = true ∧
    ∃ p, (weeksPayload s).head? = some p ∧ p.enabled = true := by
  refine ⟨applyOp_week0Enabled op s h, loadInitialState_week0Enabled stored, ?_⟩
  exact ⟨_, weeksPayload_head s, weeksPayloadBody_zero_enabled s _⟩

theorem spec_week0_always_enabled_witness :
    week0EnabledB (applyOp .clearAll DEFAULT_STATE).weeks = true ∧
    week0EnabledB (loadInitialState none).weeks = true ∧
    ∃ p, (weeksPayload DEFAULT_STATE).head? = some p ∧ p.enabled = true :=
  spec_week0_always_enabled .clearAll DEFAULT_STATE none (by decide)

theorem sme_trans {a b c : SelectionMap} (hab : areSelectionMapsEqual a b = true)
    (hbc : areSelectionMapsEqual b c = true) : areSelectionMapsEqual a c = true := by
  rw [areSelectionMapsEqual, Bool.and_eq_true]
  constructor
  · have h1 := (sme_elim hab).1
    have h2 := (sme_elim hbc).1
    simp [h1, h2]
  · rw [List.all_eq_true]
    intro k hk
    rcases (sme_elim hab).2 k hk with ⟨va, vb, hga, hgb, h1, h2, h3⟩
    have hkb : k ∈ recordKeys b := (recordGet_isSome_iff_mem_keys b k).mp (by simp [hgb])
    rcases (sme_elim hbc).2 k hkb with ⟨vb2, vc, hgb2, hgc, h4, h5, h6⟩
    rw [hgb, Option.some_inj] at hgb2
    subst hgb2
    rw [hga, hgc]
    simp [h1.trans h4, h2.trans h5, h3.trans h6]

theorem selMapWFB_filter (m : SelectionMap) (f : String × Selection → Bool)
    (h : selMapWFB m = true) : selMapWFB (m.filter f) = true := by
  have hnd : (m.map (fun e => e.1)).Nodup := by simpa [selMapWFB, recordKeys] using h
  have hsub : ((m.filter f).map (fun e => e.1)).Sublist (m.map (fun e => e.1)) :=
    (List.filter_sublist m).map (fun e => e.1)
  simpa [selMapWFB, recordKeys] using hnd.sublist hsub

theorem baseSelectionsOf_wf (ws : List WeekPlan)
    (hwf : ∀ w ∈ ws, selMapWFB w.selections = true) :
    selMapWFB (baseSelectionsOf ws) = true := by
  rw [baseSelectionsOf]
  rcases hh : ws.head? with _ | w
  · decide
  · rw [List.head?_eq_getElem?] at hh
    simpa using hwf w (List.getElem?_mem hh)

theorem ensureWeekBody_selections_wf (ws : List WeekPlan) (b : Option String) (r : Bool)
    (i : Nat) (hwf : ∀ w ∈ ws, selMapWFB w.selections = true) :
    selMapWFB (ensureWeekBody ws b r i).selections = true := by
  by_cases hi : i = 0
  · subst hi
    rw [ensureWeekBody_selections_zero]
    exact baseSelectionsOf_wf ws hwf
  · cases r with
    | true =>
      rw [ensureWeekBody_selections_repeat ws b i hi]
      exact baseSelectionsOf_wf ws hwf
    | false =>
      rw [ensureWeekBody_selections_norepeat ws b i hi]
      rcases he : ws[i]? with _ | w
      · decide
      · simpa using hwf w (List.getElem?_mem he)

theorem ensureWeeks_wf (ws : List WeekPlan) (c : Nat) (b : Option String) (r : Bool)
    (hwf : ∀ w ∈ ws, selMapWFB w.selections = true) :
    ∀ w ∈ ensureWeeks ws c b r, selMapWFB w.selections = true := by
  intro w hw
  rcases List.getElem?_of_mem hw with ⟨j, hj⟩
  rw [ensureWeeks_getElem?] at hj
  by_cases hc : j < c
  · rw [if_pos hc, Option.some_inj] at hj
    subst hj
    exact ensureWeekBody_selections_wf ws b r j hwf
  · rw [if_neg hc] at hj
    simp at hj

theorem menuPruneStage_wf (menu : Option MenuResponse) (weeks : List WeekPlan)
    (hwf : ∀ w ∈ weeks, selMapWFB w.selections = true) :
    ∀ w ∈ menuPruneStage menu weeks, selMapWFB w.selections = true := by
  intro w hw
  rcases List.getElem?_of_mem hw with ⟨j, hj⟩
  by_cases hj0 : j = 0
  · subst hj0
    rw [menuPruneStage_getElem?_zero] at hj
    rcases hk : weeks[0]? with _ | w0
    · rw [hk] at hj
      simp at hj
    · rw [hk] at hj
      simp only [Option.map_some', Option.some_inj] at hj
      have h0 : selMapWFB w0.selections = true := hwf w0 (List.getElem?_mem hk)
      subst hj
      rcases menu with _ | m
      · exact h0
      · dsimp only
        split
        · exact h0
        · exact selMapWFB_filter _ _ h0
  · rw [menuPruneStage_getElem?_tail _ _ _ (by omega)] at hj
    exact hwf w (List.getElem?_mem hj)

theorem menuSyncStage_wf (r : Bool) (weeks : List WeekPlan)
    (hwf : ∀ w ∈ weeks, selMapWFB w.selections = true) :
    ∀ w ∈ menuSyncStage r weeks, selMapWFB w.selections = true := by
  intro w hw
  rw [menuSyncStage] at hw
  split at hw
  · split at hw
    · exact hwf w hw
    · next p0 h0 =>
      dsimp only at hw
      have hp0wf : selMapWFB p0.selections = true := by
        rw [List.head?_eq_getElem?] at h0
        exact hwf p0 (List.getElem?_mem h0)
      split at hw
      · rcases List.getElem?_of_mem hw with ⟨j, hj⟩
        by_cases hj0 : j = 0
        · subst hj0
          rw [sync_getElem?_zero] at hj
          exact hwf w (List.getElem?_mem hj)
        · have h1 : 1 ≤ j := by omega
          rcases Nat.exists_eq_add_of_le h1 with ⟨k, hk⟩
          subst hk
          rw [Nat.add_comm 1 k, sync_getElem?_succ] at hj
          rcases hg : weeks[k + 1]? with _ | orig
          · rw [hg] at hj
            simp at hj
          · rw [hg] at hj
            simp only [Option.map_some', Option.some_inj] at hj
            by_cases hsme : areSelectionMapsEqual orig.selections
                (cloneSelections p0.selections) = true
            · rw [if_pos hsme] at hj
              subst hj
              exact hwf orig (List.getElem?_mem hg)
            · rw [if_neg hsme] at hj
              subst hj
              exact hp0wf
      · exact hwf w hw
  · exact hwf w hw

theorem menuPruneStage_zero_subset (m : MenuResponse) (weeks : List WeekPlan) (w0 : WeekPlan)
    (h0 : (menuPruneStage (some m) weeks)[0]? = some w0) :
    ∀ e ∈ w0.selections, e.1 ∈ menuValidIds m := by
  rw [menuPruneStage_getElem?_zero] at h0
  rcases hw : weeks[0]? with _ | v0
  · rw [hw] at h0
    simp at h0
  · rw [hw] at h0
    simp only [Option.map_some', Option.some_inj] at h0
    subst h0
    intro e he
    by_cases hc : areSelectionMapsEqual
        (v0.selections.filter (fun e => (menuValidIds m).contains e.1)) v0.selections = true
    · rw [if_pos hc] at he
      have hlen : (v0.selections.filter (fun e => (menuValidIds m).contains e.1)).length
          = v0.selections.length := by
        have := (sme_elim hc).1
        simpa [recordKeys] using this
      have hall := List.filter_length_eq_length.mp hlen e he
      simpa using hall
    · rw [if_neg hc] at he
      dsimp only at he
      have hmem := (List.mem_filter.mp he).2
      simpa using hmem

theorem menuSyncStage_tail_sme (weeks : List WeekPlan) (p0 : WeekPlan)
    (h0 : weeks.head? = some p0)
    (hwf : ∀ w ∈ weeks, selMapWFB w.selections = true) :
    ∀ (i : Nat) (wi : WeekPlan), 1 ≤ i → (menuSyncStage true weeks)[i]? = some wi →
      areSelectionMapsEqual wi.selections p0.selections = true := by
  have hp0wf : selMapWFB p0.selections = true := by
    have h0' := h0
    rw [List.head?_eq_getElem?] at h0'
    exact hwf p0 (List.getElem?_mem h0')
  intro i wi hi hwi
  rw [menuSyncStage, if_pos rfl, h0] at hwi
  dsimp only at hwi
  rcases Nat.exists_eq_add_of_le hi with ⟨j, hj⟩
  subst hj
  rw [Nat.add_comm 1 j] at hwi
  by_cases hch : (!areWeeksEqual (syncRepeatedWeeks weeks p0.selections) weeks) = true
  · rw [if_pos hch, sync_getElem?_succ] at hwi
    rcases hk : weeks[j + 1]? with _ | orig
    · rw [hk] at hwi
      simp at hwi
    · rw [hk] at hwi
      simp only [Option.map_some', Option.some_inj] at hwi
      by_cases hsme : areSelectionMapsEqual orig.selections
          (cloneSelections p0.selections) = true
      · rw [if_pos hsme] at hwi
        subst hwi
        rw [cloneSelections] at hsme
        exact hsme
      · rw [if_neg hsme] at hwi
        subst hwi
        exact sme_refl p0.selections
  · rw [if_neg hch] at hwi
    have hawe : areWeeksEqual (syncRepeatedWeeks weeks p0.selections) weeks = true := by
      revert hch
      cases areWeeksEqual (syncRepeatedWeeks weeks p0.selections) weeks <;> simp
    have hwiwf : selMapWFB wi.selections = true := hwf wi (List.getElem?_mem hwi)
    by_cases hsme : areSelectionMapsEqual wi.selections (cloneSelections p0.selections) = true
    · rw [cloneSelections] at hsme
      exact hsme
    · have hsy : (syncRepeatedWeeks weeks p0.selections)[j + 1]?
          = some { wi with selections := cloneSelections p0.selections } := by
        rw [sync_getElem?_succ, hwi]
        simp only [Option.map_some']
        rw [if_neg hsme]
      have h2 := ((awe_elim hawe).2 (j + 1) _ wi hsy hwi).2.2
      have h2' : areSelectionMapsEqual p0.selections wi.selections = true := by
        simpa [cloneSelections] using h2
      exact sme_symm hp0wf hwiwf h2'

theorem prune_pipeline_zero_subset (m : MenuResponse) (E : List WeekPlan) (r : Bool) :
    ∀ w0, (menuSyncStage r (menuPruneStage (some m) E))[0]? = some w0 →
      ∀ e ∈ w0.selections, e.1 ∈ menuValidIds m := by
  intro w0 hw0
  rw [menuSyncStage_getElem?_zero] at hw0
  exact menuPruneStage_zero_subset m E w0 hw0

theorem prune_pipeline_tail_sme (m : MenuResponse) (E : List WeekPlan)
    (hwf : ∀ w ∈ E, selMapWFB w.selections = true) :
    ∀ (i : Nat) (wi w0 : WeekPlan), 1 ≤ i →
      (menuSyncStage true (menuPruneStage (some m) E))[i]? = some wi →
      (menuSyncStage true (menuPruneStage (some m) E))[0]? = some w0 →
      areSelectionMapsEqual wi.selections w0.selections = true := by
  intro i wi w0 hi hwi hw0
  rw [menuSyncStage_getElem?_zero] at hw0
  have hPhead : (menuPruneStage (some m) E).head? = some w0 := by
    rw [List.head?_eq_getElem?]
    exact hw0
  exact menuSyncStage_tail_sme _ w0 hPhead (menuPruneStage_wf _ _ hwf) i wi hi hwi

theorem applyMenuEffect_cases (menu : Option MenuResponse) (s : PlannerState) :
    (areWeeksEqual (menuSyncStage s.repeatWeeks (menuPruneStage menu
        (ensureWeeks s.weeks (clampWeeksCount (s.weeksCount : Rat))
          ((menu.bind (fun x => x.weekStart)) <|> (s.weeks.head?.bind (fun w => w.weekStart)))
          s.repeatWeeks))) s.weeks = true ∧ applyMenuEffect menu s = s) ∨
    (applyMenuEffect menu s).weeks = menuSyncStage s.repeatWeeks (menuPruneStage menu
        (ensureWeeks s.weeks (clampWeeksCount (s.weeksCount : Rat))
          ((menu.bind (fun x => x.weekStart)) <|> (s.weeks.head?.bind (fun w => w.weekStart)))
          s.repeatWeeks)) := by
  rw [applyMenuEffect]
  split
  · next hawe => exact Or.inl ⟨hawe, rfl⟩
  · exact Or.inr rfl

theorem prune_awe_zero_transfer (m : MenuResponse) (Q ws : List WeekPlan)
    (hawe : areWeeksEqual Q ws = true)
    (hQ0 : ∀ q0, Q[0]? = some q0 → ∀ e ∈ q0.selections, e.1 ∈ menuValidIds m)
    (hQwf : ∀ w ∈ Q, selMapWFB w.selections = true)
    (hwswf : ∀ w ∈ ws, selMapWFB w.selections = true) :
    ∀ w0, ws[0]? = some w0 → ∀ e ∈ w0.selections, e.1 ∈ menuValidIds m := by
  intro w0 hw0 e he
  have hlen := (awe_elim hawe).1
  have hlt : 0 < ws.length := (List.getElem?_eq_some_iff.mp hw0).1
  rcases hq0 : Q[0]? with _ | q0
  · rw [List.getElem?_eq_none_iff] at hq0
    omega
  · have hsme : areSelectionMapsEqual q0.selections w0.selections = true :=
      ((awe_elim hawe).2 0 q0 w0 hq0 hw0).2.2
    have hq0wf : selMapWFB q0.selections = true := hQwf q0 (List.getElem?_mem hq0)
    have hw0wf : selMapWFB w0.selections = true := hwswf w0 (List.getElem?_mem hw0)
    have hkey : e.1 ∈ recordKeys q0.selections :=
      sme_mem_keys (sme_symm hq0wf hw0wf hsme) (List.mem_map.mpr ⟨e, he, rfl⟩)
    rcases List.mem_map.mp hkey with ⟨e2, he2, hk2⟩
    have hmem := hQ0 q0 hq0 e2 he2
    rw [hk2] at hmem
    exact hmem

theorem prune_awe_tail_transfer (Q ws : List WeekPlan)
    (hawe : areWeeksEqual Q ws = true)
    (hQtail : ∀ (i : Nat) (qi q0 : WeekPlan), 1 ≤ i → Q[i]? = some qi → Q[0]? = some q0 →
      areSelectionMapsEqual qi.selections q0.selections = true)
    (hQwf : ∀ w ∈ Q, selMapWFB w.selections = true)
    (hwswf : ∀ w ∈ ws, selMapWFB w.selections = true) :
    ∀ (i : Nat) (wi w0 : WeekPlan), 1 ≤ i → ws[i]? = some wi → ws[0]? = some w0 →
      areSelectionMapsEqual wi.selections w0.selections = true := by
  intro i wi w0 hi hwi hw0
  have hlen := (awe_elim hawe).1
  have hlt0 : 0 < ws.length := (List.getElem?_eq_some_iff.mp hw0).1
  have hlti : i < ws.length := (List.getElem?_eq_some_iff.mp hwi).1
  rcases hq0 : Q[0]? with _ | q0
  · rw [List.getElem?_eq_none_iff] at hq0
    omega
  rcases hqi : Q[i]? with _ | qi
  · rw [List.getElem?_eq_none_iff] at hqi
    omega
  have h0 : areSelectionMapsEqual q0.selections w0.selections = true :=
    ((awe_elim hawe).2 0 q0 w0 hq0 hw0).2.2
  have h1 : areSelectionMapsEqual qi.selections wi.selections = true :=
    ((awe_elim hawe).2 i qi wi hqi hwi).2.2
  have h2 : areSelectionMapsEqual qi.selections q0.selections = true :=
    hQtail i qi q0 hi hqi hq0
  have h1' : areSelectionMapsEqual wi.selections qi.selections = true :=
    sme_symm (hQwf qi (List.getElem?_mem hqi)) (hwswf wi (List.getElem?_mem hwi)) h1
  exact sme_trans (sme_trans h1' h2) h0

/-- C4 (amended).  When a menu is published, the normalization effect prunes
week 0's selections against the menu's offer ids — every selection that
survives in the first week references a published offer — and, with repeat
mode on, the pruned week-0 selections are re-propagated so every week
1..N-1 agrees with week 0.  The effect only prunes the first week: weeks
beyond the first are never filtered against the menu (see the
counterexample), so the spec's "for every week" pruning does not hold. -/
theorem spec_prune_base_week (m : MenuResponse) (s : PlannerState)
    (hwf : stateWFB s = true) :
    (∀ w0, (applyMenuEffect (some m) s).weeks[0]? = some w0 →
      ∀ e ∈ w0.selections, e.1 ∈ menuValidIds m) ∧
    (s.repeatWeeks = true →
      ∀ (i : Nat) (wi w0 : WeekPlan), 1 ≤ i →
        (applyMenuEffect (some m) s).weeks[i]? = some wi →
        (applyMenuEffect (some m) s).weeks[0]? = some w0 →
        areSelectionMapsEqual wi.selections w0.selections = true) := by
  have hstate : ∀ w ∈ s.weeks, selMapWFB w.selections = true := by
    rw [stateWFB, List.all_eq_true] at hwf
    exact fun w hw => hwf w hw
  rcases applyMenuEffect_cases (some m) s with ⟨hawe, heq⟩ | heq
  · constructor
    · intro w0 hw0
      rw [heq] at hw0
      have hEwf := ensureWeeks_wf s.weeks (clampWeeksCount (s.weeksCount : Rat))
        (((some m).bind (fun x => x.weekStart)) <|> (s.weeks.head?.bind (fun w => w.weekStart)))
        s.repeatWeeks hstate
      exact prune_awe_zero_transfer m _ s.weeks hawe
        (prune_pipeline_zero_subset m _ s.repeatWeeks)
        (menuSyncStage_wf s.repeatWeeks _ (menuPruneStage_wf (some m) _ hEwf))
        hstate w0 hw0
    · intro hr i wi w0 hi hwi hw0
      rw [heq] at hwi hw0
      rw [hr] at hawe
      have hEwf := ensureWeeks_wf s.weeks (clampWeeksCount (s.weeksCount : Rat))
        (((some m).bind (fun x => x.weekStart)) <|> (s.weeks.head?.bind (fun w => w.weekStart)))
        true hstate
      exact prune_awe_tail_transfer _ s.weeks hawe
        (prune_pipeline_tail_sme m _ hEwf)
        (menuSyncStage_wf true _ (menuPruneStage_wf (some m) _ hEwf))
        hstate i wi w0 hi hwi hw0
  · constructor
    · intro w0 hw0
      rw [heq] at hw0
      exact prune_pipeline_zero_subset m _ s.repeatWeeks w0 hw0
    · intro hr i wi w0 hi hwi hw0
      rw [heq, hr] at hwi hw0
      have hEwf := ensureWeeks_wf s.weeks (clampWeeksCount (s.weeksCount : Rat))
        (((some m).bind (fun x => x.weekStart)) <|> (s.weeks.head?.bind (fun w => w.weekStart)))
        true hstate
      exact prune_pipeline_tail_sme m _ hEwf i wi w0 hi hwi hw0

/-- A concrete repeat-mode state with a selection ("x") the menu no longer
offers, used to witness C4's amended pruning theorem. -/
def pruneWitnessState : PlannerState :=
  { weeks := [{ weekStart := none, selections := [("x", ⟨"x", "mon", 1⟩)], enabled := true },
              { weekStart := none, selections := [("x", ⟨"x", "mon", 1⟩)], enabled := true }]
    weeksCount := 2
    repeatWeeks := true
    address := ""
    promoCode := "" }

def pruneWitnessMenu : MenuResponse :=
  { weekStart := none
    items := [{ day := "mon", offerId := some "y", status := DayOfferStatus.available }] }

theorem spec_prune_base_week_witness :
    stateWFB pruneWitnessState = true ∧
    ((∀ w0, (applyMenuEffect (some pruneWitnessMenu) pruneWitnessState).weeks[0]? = some w0 →
        ∀ e ∈ w0.selections, e.1 ∈ menuValidIds pruneWitnessMenu) ∧
      (pruneWitnessState.repeatWeeks = true →
        ∀ (i : Nat) (wi w0 : WeekPlan), 1 ≤ i →
          (applyMenuEffect (some pruneWitnessMenu) pruneWitnessState).weeks[i]? = some wi →
          (applyMenuEffect (some pruneWitnessMenu) pruneWitnessState).weeks[0]? = some w0 →
          areSelectionMapsEqual wi.selections w0.selections = true)) :=
  ⟨by decide, spec_prune_base_week pruneWitnessMenu pruneWitnessState (by decide)⟩

/-- A repeat-off state whose week 1 references offer "x" that the published
menu no longer contains: the menu effect leaves the dangling selection in
place, refuting C4's "for every week" pruning. -/
def pruneCounterexampleState : PlannerState :=
  { weeks := [{ weekStart := none, selections := [], enabled := true },
              { weekStart := none, selections := [("x", ⟨"x", "mon", 1⟩)], enabled := true }]
    weeksCount := 2
    repeatWeeks := false
    address := ""
    promoCode := "" }

def pruneCounterexampleMenu : MenuResponse :=
  { weekStart := none
    items := [{ day := "mon", offerId := some "y", status := DayOfferStatus.available }] }

theorem spec_prune_counterexample :
    (applyMenuEffect (some pruneCounterexampleMenu) pruneCounterexampleState).weeks[1]?
      = some { weekStart := none
               selections := [("x", { offerId := "x", day := "mon", portions := 1 })]
               enabled := true } ∧
    ¬ ("x" ∈ menuValidIds pruneCounterexampleMenu) := by
  decide

theorem recordGet_set_self (m : SelectionMap) (k : String) (v : Selection) :
    recordGet (recordSet m k v) k = some v := by
  rw [recordSet]
  by_cases hany : (m.any (fun e => e.1 == k)) = true
  · rw [if_pos hany]
    induction m with
    | nil => simp at hany
    | cons e es ih =>
      simp only [List.map_cons]
      by_cases hek : (e.1 == k) = true
      · rw [if_pos hek, recordGet, List.find?_cons_of_pos _ (by simp)]
        simp
      · have hekf : (e.1 == k) = false := by
          revert hek
          cases e.1 == k <;> simp
        rw [if_neg hek, recordGet, List.find?_cons]
        simp only [hekf]
        simp only [List.any_cons, Bool.or_eq_true] at hany
        rcases hany with h | h
        · exact absurd h hek
        · exact ih h
  · rw [if_neg hany]
    have hm : m.find? (fun e => e.1 == k) = none := by
      rw [List.find?_eq_none]
      intro x hx hcon
      apply hany
      rw [List.any_eq_true]
      exact ⟨x, hx, hcon⟩
    rw [recordGet, List.find?_append, hm]
    simp

/-- C6 (amended).  The planner never rejects an out-of-range portion edit:
`handleChangePortions` silently clamps the requested value into
1..MAX_PORTIONS (8) — the handler is either a no-op or stores exactly the
clamped value for the edited offer — while the checkout wizard's count
selector offers exactly the values 1..4.  The spec's claim that any portion
count outside 1..4 is rejected as a validation error before state is
touched does not hold in the planner (see the counterexample, which stores
5 portions). -/
theorem spec_portions_clamp (menu : Option MenuResponse) (offerId : String) (n : Int)
    (s : PlannerState) :
    (1 ≤ (min (max n 1) (MAX_PORTIONS : Int)).toNat
      ∧ (min (max n 1) (MAX_PORTIONS : Int)).toNat ≤ MAX_PORTIONS) ∧
    (handleChangePortions menu offerId n s = s ∨
      ∃ w, (handleChangePortions menu offerId n s).weeks[0]? = some w ∧
        ∃ sel, recordGet w.selections offerId = some sel ∧
          sel.portions = (min (max n 1) (MAX_PORTIONS : Int)).toNat) ∧
    (∀ c ∈ newOrderCountOptions, 1 ≤ c ∧ c ≤ 4) := by
  refine ⟨?_, ?_, by decide⟩
  · show 1 ≤ (min (max n 1) ((8 : Nat) : Int)).toNat
      ∧ (min (max n 1) ((8 : Nat) : Int)).toNat ≤ (8 : Nat)
    omega
  · rw [handleChangePortions]
    dsimp only
    split
    · exact Or.inl rfl
    · next current hcur =>
      split
      · exact Or.inl rfl
      · next sel hsel =>
        split
        · exact Or.inl rfl
        · refine Or.inr ⟨{ current with selections := recordSet current.selections offerId { sel with portions := (min (max n 1) (MAX_PORTIONS : Int)).toNat } }, ?_, ⟨{ sel with portions := (min (max n 1) (MAX_PORTIONS : Int)).toNat }, recordGet_set_self _ _ _, rfl⟩⟩
          dsimp only
          have hlen : 0 < (ensureWeeks s.weeks (clampWeeksCount (s.weeksCount : Rat))
              ((menu.bind (fun m => m.weekStart)) <|> (s.weeks.head?.bind (fun w => w.weekStart)))
              s.repeatWeeks).length := by
            rw [ensureWeeks_length]
            exact clampWeeksCount_pos _
          split
          · rw [sync_getElem?_zero, List.getElem?_set_self (by simpa using hlen)]
          · rw [List.getElem?_set_self (by simpa using hlen)]

/-- A one-week repeat-off state holding one selection of offer "a": asking
for 5 portions stores 5 — above the checkout range 1..4 — with no error. -/
def portionsCounterexampleState : PlannerState :=
  { weeks := [{ weekStart := none, selections := [("a", ⟨"a", "mon", 1⟩)], enabled := true }]
    weeksCount := 1
    repeatWeeks := false
    address := ""
    promoCode := "" }

theorem spec_portions_counterexample :
    (handleChangePortions none "a" 5 portionsCounterexampleState).weeks
      = [{ weekStart := none
           selections := [("a", { offerId := "a", day := "mon", portions := 5 })]
           enabled := true }] ∧
    ¬ ((5 : Nat) ≤ 4) := by
  decide

/-- Modelled from the spec: C7.  The quote's grand total is
`max(subtotal - discount, 0)` and is never negative, for every week list
and promo rule (including a discount exceeding the subtotal), and the
frontend's fallback total (`overallTotal` with no calc response) computes
the same expression. -/
theorem spec_total_never_negative (weeks : List SpecQuoteWeek) (promo : PromoRule)
    (subtotal discount : Int) :
    (specCalculate weeks promo).total
      = max ((specCalculate weeks promo).subtotal - (specCalculate weeks promo).discount) 0 ∧
    0 ≤ (specCalculate weeks promo).total ∧
    overallTotal none subtotal discount = max (subtotal - discount) 0 ∧
    0 ≤ overallTotal none subtotal discount := by
  refine ⟨rfl, ?_, rfl, ?_⟩
  · exact le_max_right _ _
  · exact le_max_right _ _

/-- Modelled from the spec: C8.  `createOrder` fails with a duplicate-order
error exactly when `findActive` finds an order with status `new` for the
same (customer, day, weekStart) tuple; the error carries the conflicting
order's id and portion count; and when no order of the ledger has status
`new` (for example, all are cancelled), creation succeeds. -/
theorem spec_duplicate_order_blocking (orders : List Order) (o : Order) :
    (∀ c, findActive orders o.customerId o.day o.weekStart = some c →
      c.status = OrderStatus.new ∧ c.customerId = o.customerId ∧ c.day = o.day ∧
      c.weekStart = o.weekStart ∧
      createOrder orders o = .error { orderId := c.id, count := c.portionCount }) ∧
    (findActive orders o.customerId o.day o.weekStart = none →
      createOrder orders o = .ok (orders ++ [o])) ∧
    ((∀ c ∈ orders, c.status ≠ OrderStatus.new) →
      createOrder orders o = .ok (orders ++ [o])) := by
  refine ⟨?_, ?_, ?_⟩
  · intro c hc
    have hp := List.find?_some hc
    simp only [Bool.and_eq_true, beq_iff_eq] at hp
    obtain ⟨⟨⟨h1, h2⟩, h3⟩, h4⟩ := hp
    refine ⟨h1, h2, h3, h4, ?_⟩
    rw [createOrder, hc]
  · intro h
    rw [createOrder, h]
  · intro h
    have hnone : findActive orders o.customerId o.day o.weekStart = none := by
      rw [findActive, List.find?_eq_none]
      intro x hx
      have hst := h x hx
      simp only [Bool.and_eq_true, beq_iff_eq]
      intro hcon
      exact hst hcon.1.1.1
    rw [createOrder, hnone]

/-- A concrete ledger: customer 7's Monday order is active, so a second
submission for the same tuple is blocked with the conflict's id and count;
the cancelled order for Tuesday does not block. -/
def dupLedger : List Order :=
  [{ id := 1, customerId := 7, day := "mon", weekStart := "2025-01-06", portionCount := 2,
     status := OrderStatus.new },
   { id := 2, customerId := 7, day := "tue", weekStart := "2025-01-06", portionCount := 1,
     status := OrderStatus.cancelled_by_customer }]

def dupNewOrder : Order :=
  { id := 3, customerId := 7, day := "mon", weekStart := "2025-01-06", portionCount := 3,
    status := OrderStatus.new }

theorem spec_duplicate_order_blocking_witness :
    (∀ c, findActive dupLedger dupNewOrder.customerId dupNewOrder.day dupNewOrder.weekStart
        = some c →
      c.status = OrderStatus.new ∧ c.customerId = dupNewOrder.customerId ∧
      c.day = dupNewOrder.day ∧ c.weekStart = dupNewOrder.weekStart ∧
      createOrder dupLedger dupNewOrder
        = .error { orderId := c.id, count := c.portionCount }) ∧
    (findActive dupLedger dupNewOrder.customerId dupNewOrder.day dupNewOrder.weekStart = none →
      createOrder dupLedger dupNewOrder = .ok (dupLedger ++ [dupNewOrder])) ∧
    ((∀ c ∈ dupLedger, c.status ≠ OrderStatus.new) →
      createOrder dupLedger dupNewOrder = .ok (dupLedger ++ [dupNewOrder])) :=
  spec_duplicate_order_blocking dupLedger dupNewOrder

theorem recordSet_portions_le (m : SelectionMap) (k : String) (v : Selection)
    (hm : ∀ e ∈ m, e.2.portions ≤ MAX_PORTIONS) (hv : v.portions ≤ MAX_PORTIONS) :
    ∀ e ∈ recordSet m k v, e.2.portions ≤ MAX_PORTIONS := by
  intro e he
  rw [recordSet] at he
  split at he
  · rcases List.mem_map.mp he with ⟨e0, he0, heq⟩
    by_cases hek : (e0.1 == k) = true
    · rw [if_pos hek] at heq
      subst heq
      exact hv
    · rw [if_neg hek] at heq
      subst heq
      exact hm e0 he0
  · rcases List.mem_append.mp he with h | h
    · exact hm e h
    · rw [List.mem_singleton] at h
      subst h
      exact hv

theorem foldl_portions_le {α : Type} (g : SelectionMap → α → SelectionMap)
    (hg : ∀ acc a, (∀ e ∈ acc, e.2.portions ≤ MAX_PORTIONS) →
      ∀ e ∈ g acc a, e.2.portions ≤ MAX_PORTIONS) :
    ∀ (l : List α) (init : SelectionMap),
      (∀ e ∈ init, e.2.portions ≤ MAX_PORTIONS) →
      ∀ e ∈ List.foldl g init l, e.2.portions ≤ MAX_PORTIONS := by
  intro l
  induction l with
  | nil =>
    intro init h
    simpa using h
  | cons a as ih =>
    intro init h
    rw [List.foldl_cons]
    exact ih _ (hg init a h)

theorem normalizeSelections_portions_le (input : JsVal) :
    ∀ e ∈ normalizeSelections input, e.2.portions ≤ MAX_PORTIONS := by
  rw [normalizeSelections.eq_def]
  split
  · refine foldl_portions_le _ ?_ _ _ (by simp)
    intro acc a h
    split
    · refine recordSet_portions_le _ _ _ h ?_
      dsimp only
      split
      · split
        · exact Nat.min_le_right _ _
        · decide
      · decide
    · refine recordSet_portions_le _ _ _ h ?_
      dsimp only
      split
      · split
        · exact Nat.min_le_right _ _
        · decide
      · decide
    · exact h
  · refine foldl_portions_le _ ?_ _ _ (by simp)
    intro acc a h
    split
    · refine recordSet_portions_le _ _ _ h ?_
      dsimp only
      split
      · split
        · exact Nat.min_le_right _ _
        · decide
      · decide
    · refine recordSet_portions_le _ _ _ h ?_
      dsimp only
      split
      · split
        · exact Nat.min_le_right _ _
        · decide
      · decide
    · exact h
  · intro e he
    simp at he

theorem ensureWeeks_selections_source (ws : List WeekPlan) (c : Nat) (b : Option String)
    (r : Bool) : ∀ w ∈ ensureWeeks ws c b r,
      w.selections = [] ∨ ∃ w2 ∈ ws, w.selections = w2.selections := by
  have hbase : baseSelectionsOf ws = [] ∨ ∃ w2 ∈ ws, baseSelectionsOf ws = w2.selections := by
    rw [baseSelectionsOf]
    rcases hh : ws.head? with _ | w2
    · exact Or.inl rfl
    · rw [List.head?_eq_getElem?] at hh
      exact Or.inr ⟨w2, List.getElem?_mem hh, rfl⟩
  intro w hw
  rcases List.getElem?_of_mem hw with ⟨j, hj⟩
  rw [ensureWeeks_getElem?] at hj
  by_cases hc : j < c
  · rw [if_pos hc, Option.some_inj] at hj
    subst hj
    by_cases hj0 : j = 0
    · subst hj0
      rw [ensureWeekBody_selections_zero]
      exact hbase
    · cases r with
      | true =>
        rw [ensureWeekBody_selections_repeat ws b j hj0]
        exact hbase
      | false =>
        rw [ensureWeekBody_selections_norepeat ws b j hj0]
        rcases hg : ws[j]? with _ | w2
        · exact Or.inl rfl
        · exact Or.inr ⟨w2, List.getElem?_mem hg, rfl⟩
  · rw [if_neg hc] at hj
    simp at hj

theorem clampNumber_bounds (v : JsVal) (lo hi : Rat) (hlohi : lo ≤ hi) :
    clampNumber v lo hi = none ∨
      ∃ q, clampNumber v lo hi = some q ∧ lo ≤ q ∧ q ≤ hi := by
  rw [clampNumber.eq_def]
  split
  · exact Or.inr ⟨lo, rfl, le_refl lo, hlohi⟩
  · split
    · exact Or.inl rfl
    · exact Or.inr ⟨_, rfl, le_min (le_max_right _ _) hlohi, min_le_right _ _⟩

theorem jsNumToCount_clampNumber_le (v : JsVal) :
    jsNumToCount (clampNumber v 1 ((MAX_WEEKS : Nat) : Rat)) ≤ MAX_WEEKS := by
  rw [clampNumber.eq_def]
  split
  · decide
  · split
    · decide
    · next q hq =>
      have hc : (min (max ((ratFloor q : Int) : Rat) 1) ((MAX_WEEKS : Nat) : Rat))
          = ((min (max (ratFloor q) 1) (MAX_WEEKS : Int) : Int) : Rat) := by
        push_cast
        rfl
      rw [hc, jsNumToCount, ratCeil_intCast]
      rw [show (MAX_WEEKS : Int) = 8 from rfl, show MAX_WEEKS = 8 from rfl]
      omega

/-- C10 (amended).  Restoring persisted planner state is total — every
stored value yields a state with no thrown error — and partially clamped:
every restored selection's portion count is at most MAX_PORTIONS (8), the
restored week list has at most MAX_WEEKS (8) entries, the stored weeksCount
is either NaN (kept as `none`) or clamped into 1..8, and the first restored
week (when one exists) is enabled.  The spec's stronger claims fail: a
stored fractional portion count like 0.5 floors to 0 (not a positive
count, not defaulted to 1), and a non-numeric stored weeksCount coerces to
NaN, which survives clampNumber as `none` and makes the restored week list
empty (see the counterexample). -/
theorem spec_load_state_total (stored : Option JsVal) :
    (∀ w ∈ (loadInitialState stored).weeks, ∀ e ∈ w.selections,
      e.2.portions ≤ MAX_PORTIONS) ∧
    (loadInitialState stored).weeks.length ≤ MAX_WEEKS ∧
    ((loadInitialState stored).weeksCount = none ∨
      ∃ q, (loadInitialState stored).weeksCount = some q ∧
        1 ≤ q ∧ q ≤ ((MAX_WEEKS : Nat) : Rat)) ∧
    week0EnabledB (loadInitialState stored).weeks = true := by
  have hmw : (1 : Rat) ≤ ((MAX_WEEKS : Nat) : Rat) := by norm_num [MAX_WEEKS]
  rcases stored with _ | parsed
  · refine ⟨by decide, by decide, ?_, by decide⟩
    exact Or.inr ⟨_, rfl, by norm_num [DEFAULT_STATE], by norm_num [DEFAULT_STATE, MAX_WEEKS]⟩
  · rw [loadInitialState]
    split
    · next rawWeeks heq =>
      refine ⟨?_, ?_, ?_, ?_⟩
      · intro w hw
        rcases ensureWeeks_selections_source _ _ _ _ w hw with hnil | ⟨w2, hw2, heq⟩
        · rw [hnil]
          intro e he
          simp at he
        · rw [heq]
          split at hw2
          · rcases List.mem_map.mp hw2 with ⟨p, hp, hpe⟩
            subst hpe
            exact normalizeSelections_portions_le _
          · rw [List.mem_singleton] at hw2
            subst hw2
            intro e he
            simp [createWeekPlan, cloneSelections] at he
      · have h1 := jsNumToCount_clampNumber_le
          (jsNullish (jsGet parsed "weeksCount") (.num (rawWeeks.length : Rat)))
        simpa [ensureWeeks_length] using h1
      · exact clampNumber_bounds _ 1 _ hmw
      · exact week0EnabledB_ensure _ _ _ _
    · refine ⟨?_, ?_, ?_, ?_⟩
      · intro w hw
        rcases ensureWeeks_selections_source _ _ _ _ w hw with hnil | ⟨w2, hw2, heq⟩
        · rw [hnil]
          intro e he
          simp at he
        · rw [heq]
          rw [List.mem_singleton] at hw2
          subst hw2
          intro e he
          exact normalizeSelections_portions_le _ e
            (by simpa [createWeekPlan, cloneSelections] using he)
      · have h1 := jsNumToCount_clampNumber_le (jsNullish (jsGet parsed "weeksCount") (.num 1))
        simpa [ensureWeeks_length] using h1
      · exact clampNumber_bounds _ 1 _ hmw
      · exact week0EnabledB_ensure _ _ _ _

/-- Stored state whose selection has portions 0.5: the restore floors it to
0, violating the spec's positive-portions (defaulting) guarantee. -/
def loadCexPortions : JsVal :=
  .obj [("weeks", .arr [.obj [("selections",
    .obj [("a", .obj [("portions", .num (mkRat 1 2))])])]])]

/-- Stored state whose weeksCount is the string "abc": `Number("abc")` is
NaN, `clampNumber` propagates it, and the restored week list is empty —
weeksCount is not clamped into 1..8. -/
def loadCexCount : JsVal :=
  .obj [("weeksCount", .str "abc")]

theorem spec_load_state_counterexample :
    (loadInitialState (some loadCexPortions)).weeks
      = [{ weekStart := none
           selections := [("a", { offerId := "a", day := "", portions := 0 })]
           enabled := true }] ∧
    ¬ (1 ≤ (0 : Nat)) ∧
    (loadInitialState (some loadCexCount)).weeksCount = none ∧
    (loadInitialState (some loadCexCount)).weeks = [] := by
  decide
